import Mathlib

/-!
# Verification of the tee-time aggregation server

A shallow embedding of `src/server/index.js`: the course registry, the
schedule-id discoverer, the cached tee-time fetcher and the
`GET /api/teetimes` handler, together with proofs of the behavioural
properties stated in the specification.

Modelling conventions:
* Machine time is a `Nat` count of seconds (`NodeCache` TTLs are seconds).
* The upstream service is an explicit oracle (`Upstream`), so that runs
  under different upstream behaviours can be compared.
* JavaScript falsiness of the relevant values is modelled explicitly:
  a missing/`null` schedule id is `none`, and `some 0` is falsy as well;
  a missing time string is `none` and the empty string is falsy.
* `NodeCache` keys are interpolated strings
  (`schedule_<courseId>`, `times_<key>_<sid>_<date>_<players>`); since the
  registry course keys and the numeric components contain no underscore,
  the interpolation is injective on reachable keys, and keys are modelled
  by the structured type `CKey`.
-/

namespace TeeTimes

/-- The JavaScript whitespace characters relevant to `\s`, `trim` and
`parseInt` (space, tab, line feed, carriage return, vertical tab, form feed). -/
def jsWs (c : Char) : Bool :=
  c = ' ' || c = '\t' || c = '\n' || c = '\r' || c = Char.ofNat 11 || c = Char.ofNat 12

/-- Numeric value of a list of decimal digit characters (the value
`parseInt` gives to a regex `\d+` capture). -/
def natOfDigits (ds : List Char) : Nat :=
  ds.foldl (fun a c => 10 * a + (c.toNat - 48)) 0

/-- Digits of a decimal integer literal after an optional sign, as used by
`parseInt`: leading decimal digits of the remaining input. -/
def decDigits (cs : List Char) : List Char :=
  cs.takeWhile Char.isDigit

/-- Models JavaScript `parseInt(s)` (radix unspecified): skip leading
whitespace, optional sign, then either a `0x`/`0X` hexadecimal literal or
leading decimal digits; `none` models `NaN`. -/
def jsParseInt (s : String) : Option Int :=
  let cs := s.toList.dropWhile jsWs
  let core : List Char → Option Nat := fun t =>
    match t with
    | '0' :: x :: rest =>
      if x = 'x' || x = 'X' then
        let hs := rest.takeWhile (fun c => c.isDigit || ('a' ≤ c && c ≤ 'f') || ('A' ≤ c && c ≤ 'F'))
        if hs = [] then none
        else some (hs.foldl (fun a c =>
          16 * a + (if c.isDigit then c.toNat - 48
                    else if 'a' ≤ c then c.toNat - 87 else c.toNat - 55)) 0)
      else
        let ds := decDigits t
        if ds = [] then none else some (natOfDigits ds)
    | _ =>
      let ds := decDigits t
      if ds = [] then none else some (natOfDigits ds)
  match cs with
  | '-' :: rest => (core rest).map (fun n => -(n : Int))
  | '+' :: rest => (core rest).map (fun n => (n : Int))
  | _ => (core cs).map (fun n => (n : Int))

/-- Models JavaScript `String.prototype.trim`: strip whitespace from both
ends. -/
def jsTrim (s : String) : String :=
  String.mk (((s.toList.dropWhile jsWs).reverse.dropWhile jsWs).reverse)

/-- Grouping of characters between commas. -/
def splitCommaChars : List Char → List (List Char)
  | [] => [[]]
  | c :: cs =>
    if c = ',' then [] :: splitCommaChars cs
    else
      match splitCommaChars cs with
      | [] => [[c]]
      | g :: gs => (c :: g) :: gs

/-- Models JavaScript `s.split(',')`: the (possibly empty) chunks between
commas; the empty string yields `[""]`. -/
def jsSplitComma (s : String) : List String :=
  (splitCommaChars s.toList).map String.mk

/-- Character-wise lexicographic comparison of strings; models the
`localeCompare` used by the sort comparator (for the ASCII timestamp
strings involved, locale order coincides with code-point order). -/
def lexCompare : List Char → List Char → Ordering
  | [], [] => Ordering.eq
  | [], _ :: _ => Ordering.lt
  | _ :: _, [] => Ordering.gt
  | a :: as, b :: bs =>
    if a < b then Ordering.lt else if b < a then Ordering.gt else lexCompare as bs

/-- String comparison used by the tee-time sort comparator. -/
def strCompare (s t : String) : Ordering :=
  lexCompare s.toList t.toList

/-! ## Schedule discovery (`discoverScheduleId`) -/

/-- Match a literal character sequence at the head of the input, returning
the remaining input. -/
def stripLit : List Char → List Char → Option (List Char)
  | [], cs => some cs
  | _ :: _, [] => none
  | l :: ls, c :: cs => if c = l then stripLit ls cs else none

/-- Attempt of the regex `/"schedule_id"\s*:\s*(\d+)/` at the head of the
input: literal `"schedule_id"`, optional whitespace, `:`, optional
whitespace, then one or more digits (the capture, taken maximally).
Returns the captured number. -/
def matchScheduleIdPat (cs : List Char) : Option Nat :=
  match stripLit ("\"schedule_id\"").toList cs with
  | none => none
  | some r1 =>
    match r1.dropWhile jsWs with
    | ':' :: r2 =>
      let r3 := r2.dropWhile jsWs
      let ds := r3.takeWhile Char.isDigit
      if ds = [] then none else some (natOfDigits ds)
    | _ => none

/-- Attempt of the regex `/"id"\s*:\s*(\d+)\s*,\s*"facility_id"/` at the
head of the input. Returns the captured number. -/
def matchIdFacilityPat (cs : List Char) : Option Nat :=
  match stripLit ("\"id\"").toList cs with
  | none => none
  | some r1 =>
    match r1.dropWhile jsWs with
    | ':' :: r2 =>
      let r3 := r2.dropWhile jsWs
      let ds := r3.takeWhile Char.isDigit
      if ds = [] then none
      else
        match (r3.dropWhile Char.isDigit).dropWhile jsWs with
        | ',' :: r4 =>
          match stripLit ("\"facility_id\"").toList (r4.dropWhile jsWs) with
          | some _ => some (natOfDigits ds)
          | none => none
        | _ => none
    | _ => none

/-- Leftmost-match scan of `String.prototype.match` with a non-anchored
regex: try the pattern at each position from the left, returning the first
successful capture. -/
def scanFirst (f : List Char → Option Nat) : List Char → Option Nat
  | [] => none
  | c :: cs =>
    match f (c :: cs) with
    | some n => some n
    | none => scanFirst f cs

/-- Result of the discovery page request: the raw body on success, or a
network failure / timeout / non-string body (anything that makes the
`try` block throw). -/
inductive DiscResp where
  | ok (body : String)
  | err
deriving DecidableEq

/-- Models `discoverScheduleId`: on a successful page fetch, scan the body
for `/"schedule_id"\s*:\s*(\d+)/` and, failing that, for
`/"id"\s*:\s*(\d+)\s*,\s*"facility_id"/`; return the first capture, or
`none` (JavaScript `null`) on failure or no match. Never throws to the
caller (the whole body is a `try`/`catch`). -/
def discoverScheduleId : DiscResp → Option Nat
  | DiscResp.err => none
  | DiscResp.ok body =>
    match scanFirst matchScheduleIdPat body.toList with
    | some n => some n
    | none => scanFirst matchIdFacilityPat body.toList

/-! ## Data model -/

/-- One slot object of the upstream times API response. Fields are passed
through verbatim; every field may be absent (`none`). Fee fields are
opaque passthrough numbers. -/
structure Slot where
  time : Option String
  available_spots : Option Int
  green_fee : Option Int
  cart_fee : Option Int
  players : Option (List String)
  holes : Option Int
deriving DecidableEq, Repr

/-- The normalized tee-time record produced by `fetchTeeTimes`. -/
structure TeeTimeRecord where
  course : String
  courseKey : String
  scheduleLabel : String
  time : Option String
  available_spots : Option Int
  green_fee : Option Int
  cart_fee : Option Int
  players : List String
  holes : Option Int
  bookingUrl : String
deriving DecidableEq, Repr

/-- A schedule entry of a course config. `id = none` models an absent or
`null` id; `some 0` is also falsy in the JavaScript checks. -/
structure Schedule where
  id : Option Nat
  label : String
deriving DecidableEq, Repr

/-- A course config of the registry. -/
structure Course where
  name : String
  courseId : Nat
  schedules : List Schedule
  bookingUrl : String
deriving DecidableEq, Repr

/-- JavaScript truthiness of a schedule id value. -/
def truthyN : Option Nat → Bool
  | none => false
  | some n => n != 0

/-- The static course registry `COURSES`, in source order. -/
def COURSES : List (String × Course) :=
  [ ("lafortune",
     { name := "LaFortune Park", courseId := 20922,
       schedules := [{ id := some 6194, label := "Championship (18 holes)" }],
       bookingUrl := "https://foreupsoftware.com/index.php/booking/20922/6194#teetimes" }),
    ("battlecreek",
     { name := "Battle Creek", courseId := 22756,
       schedules := [{ id := some 11838, label := "Battle Creek" }],
       bookingUrl := "https://foreupsoftware.com/index.php/booking/index/22756#teetimes" }),
    ("stonecreek",
     { name := "Page Belcher - Stone Creek", courseId := 22842,
       schedules := [{ id := some 12128, label := "Stone Creek" }],
       bookingUrl := "https://foreupsoftware.com/index.php/booking/22842/12128#/teetimes" }),
    ("oldepage",
     { name := "Page Belcher - Olde Page", courseId := 22842,
       schedules := [{ id := some 12126, label := "Olde Page" }],
       bookingUrl := "https://foreupsoftware.com/index.php/booking/22842/12126#/teetimes" }),
    ("cherokeehills",
     { name := "Cherokee Hills", courseId := 21188,
       schedules := [{ id := some 7193, label := "Cherokee Hills" }],
       bookingUrl := "https://foreupsoftware.com/index.php/booking/21188/7193#/teetimes" }),
    ("southlakes",
     { name := "South Lakes", courseId := 20923,
       schedules := [{ id := some 6195, label := "South Lakes" }],
       bookingUrl := "https://foreupsoftware.com/index.php/booking/20923/6195#/teetimes" }) ]

/-! ## The shared `NodeCache` -/

/-- Structured cache keys, standing for the interpolated strings
`schedule_<courseId>` and `times_<courseKey>_<scheduleId>_<date>_<players>`
(injective on reachable keys, see the file header). The `players`
component is `Option Int` because `parseInt` can produce `NaN` (`none`). -/
inductive CKey where
  | sched (courseId : Nat)
  | times (courseKey : String) (scheduleId : Nat) (date : String) (players : Option Int)
deriving DecidableEq, Repr

/-- Cached values: a discovered schedule id or a normalized times array. -/
inductive CVal where
  | schedId (n : Nat)
  | times (rs : List TeeTimeRecord)
deriving DecidableEq, Repr

/-- The cache content: entries `(key, value, expiry)`, newest first; a
`set` shadows older entries for the same key. -/
abbrev Cache := List (CKey × CVal × Nat)

/-- Models `cache.get` at time `now`: the newest entry for the key, if it
has not yet expired. -/
def cacheGet (c : Cache) (k : CKey) (now : Nat) : Option CVal :=
  match c.find? (fun e => decide (e.1 = k)) with
  | some e => if now < e.2.2 then some e.2.1 else none
  | none => none

/-- Models `cache.set` with an absolute expiry instant. -/
def cacheSet (c : Cache) (k : CKey) (v : CVal) (expiry : Nat) : Cache :=
  (k, v, expiry) :: c

/-- `cache.get` of a schedule-id entry (the value stored under a
`schedule_…` key is always a number). -/
def cacheGetSched (c : Cache) (k : CKey) (now : Nat) : Option Nat :=
  match cacheGet c k now with
  | some (CVal.schedId n) => some n
  | _ => none

/-- `cache.get` of a times entry (the value stored under a `times_…` key
is always a records array; an empty array is truthy, hence a hit). -/
def cacheGetTimes (c : Cache) (k : CKey) (now : Nat) : Option (List TeeTimeRecord) :=
  match cacheGet c k now with
  | some (CVal.times rs) => some rs
  | _ => none

/-! ## Upstream oracle and server state -/

/-- Response of the upstream times endpoint: `ok (some slots)` is a JSON
array, `ok none` is a non-array response, `err` is an HTTP error or
timeout (the `axios` call throws). -/
inductive TimesResp where
  | ok (data : Option (List Slot))
  | err
deriving DecidableEq

/-- The upstream service, as an oracle: the times endpoint keyed by the
varying query parameters (`schedule_id`, `date`, `players`; the remaining
parameters and headers are fixed by the source), and the booking index
page keyed by facility id. -/
structure Upstream where
  times : Nat → String → Option Int → TimesResp
  disc : Nat → DiscResp

/-- An upstream HTTP request issued by the server (the observable
side-channel used to state caching properties). -/
inductive UpstreamReq where
  | discovery (courseId : Nat)
  | times (scheduleId : Nat) (date : String) (players : Option Int)
deriving DecidableEq, Repr

/-- Mutable process state: the course registry (whose schedule ids can be
lazily populated) and the shared cache. -/
structure St where
  courses : List (String × Course)
  cache : Cache
deriving DecidableEq

/-- Own-property lookup in the registry object (first binding wins). -/
def lookupCourse : List (String × Course) → String → Option Course
  | [], _ => none
  | (k, c) :: rest, key => if k = key then some c else lookupCourse rest key

/-- Overwrite the id of the schedule at a position. -/
def setIdAt : List Schedule → Nat → Nat → List Schedule
  | [], _, _ => []
  | s :: ss, 0, v => { s with id := some v } :: ss
  | s :: ss, Nat.succ i, v => s :: setIdAt ss i v

/-- Models the in-place mutation `schedule.id = scheduleId` on the course
object bound to `key` (the first binding, as in a JavaScript object). -/
def setScheduleId : List (String × Course) → String → Nat → Nat → List (String × Course)
  | [], _, _, _ => []
  | (k, c) :: rest, key, i, v =>
    if k = key then (k, { c with schedules := setIdAt c.schedules i v }) :: rest
    else (k, c) :: setScheduleId rest key i v

/-! ## The tee-time fetcher (`fetchTeeTimes`) -/

/-- Normalization of one upstream slot into a `TeeTimeRecord`, carrying
the course display name and key, the schedule label and the booking url
(`slot.players || []` defaults an absent players array to `[]`). -/
def slotToRecord (course : Course) (courseKey : String) (sch : Schedule) (slot : Slot) :
    TeeTimeRecord :=
  { course := course.name
    courseKey := courseKey
    scheduleLabel := sch.label
    time := slot.time
    available_spots := slot.available_spots
    green_fee := slot.green_fee
    cart_fee := slot.cart_fee
    players := slot.players.getD []
    holes := slot.holes
    bookingUrl := course.bookingUrl }

/-- The schedule-id resolution prefix of one loop iteration of
`fetchTeeTimes`: use `schedule.id` if truthy, else the 24-hour cache, else
invoke discovery; a truthy discovery result is cached for 86400 seconds
and written back into `schedule.id` (position `i` of the course bound to
`courseKey`). Returns the value of the local variable `scheduleId`, the
new state and the upstream requests issued. -/
def resolveScheduleId (U : Upstream) (now : Nat) (courseKey : String) (course : Course)
    (i : Nat) (sch : Schedule) (st : St) : Option Nat × St × List UpstreamReq :=
  if truthyN sch.id then (sch.id, st, [])
  else
    let c := cacheGetSched st.cache (CKey.sched course.courseId) now
    if truthyN c then (c, st, [])
    else
      let d := discoverScheduleId (U.disc course.courseId)
      if truthyN d then
        (d,
         { courses := setScheduleId st.courses courseKey i (d.getD 0)
           cache := cacheSet st.cache (CKey.sched course.courseId)
                      (CVal.schedId (d.getD 0)) (now + 86400) },
         [UpstreamReq.discovery course.courseId])
      else (d, st, [UpstreamReq.discovery course.courseId])

/-- The times part of one loop iteration of `fetchTeeTimes`: check the
5-minute cache (an empty cached array is truthy, hence a hit); on a miss,
call the upstream times endpoint, normalize (a non-array response is
treated as `[]`), cache the result for 300 seconds and return it; on an
HTTP error return `[]` for this schedule without caching. -/
def fetchScheduleTimes (U : Upstream) (now : Nat) (courseKey : String) (date : String)
    (players : Option Int) (course : Course) (sch : Schedule) (sid : Nat) (st : St) :
    List TeeTimeRecord × St × List UpstreamReq :=
  let k := CKey.times courseKey sid date players
  match cacheGetTimes st.cache k now with
  | some rs => (rs, st, [])
  | none =>
    match U.times sid date players with
    | TimesResp.err => ([], st, [UpstreamReq.times sid date players])
    | TimesResp.ok dat =>
      let rs := (dat.getD []).map (slotToRecord course courseKey sch)
      (rs, { st with cache := cacheSet st.cache k (CVal.times rs) (now + 300) },
       [UpstreamReq.times sid date players])

/-- One iteration of the `for (const schedule of course.schedules)` loop:
resolve the schedule id (skipping the schedule when it stays falsy), then
fetch the times. -/
def stepSchedule (U : Upstream) (now : Nat) (courseKey : String) (date : String)
    (players : Option Int) (course : Course) (st : St) (i : Nat) (sch : Schedule) :
    List TeeTimeRecord × St × List UpstreamReq :=
  let r := resolveScheduleId U now courseKey course i sch st
  match r.1 with
  | none => ([], r.2.1, r.2.2)
  | some sid =>
    if sid = 0 then ([], r.2.1, r.2.2)
    else
      let t := fetchScheduleTimes U now courseKey date players course sch sid r.2.1
      (t.1, t.2.1, r.2.2 ++ t.2.2)

/-- The schedule loop of `fetchTeeTimes`, over the indexed schedules of
the course snapshot taken at entry (within one run only iteration `i`
mutates position `i`, so the snapshot elements coincide with the live
ones). -/
def fetchLoop (U : Upstream) (now : Nat) (courseKey : String) (date : String)
    (players : Option Int) (course : Course) :
    List (Nat × Schedule) → St → List TeeTimeRecord × St × List UpstreamReq
  | [], st => ([], st, [])
  | (i, sch) :: rest, st =>
    let x := stepSchedule U now courseKey date players course st i sch
    let y := fetchLoop U now courseKey date players course rest x.2.1
    (x.1 ++ y.1, y.2.1, x.2.2 ++ y.2.2)

/-- The own property names of `Object.prototype`: indexing the registry
object literal with one of these yields the inherited member (a truthy
function or object) rather than `undefined`. -/
def objectProtoKeys : List String :=
  ["constructor", "hasOwnProperty", "isPrototypeOf", "propertyIsEnumerable",
   "toLocaleString", "toString", "valueOf",
   "__defineGetter__", "__defineSetter__", "__lookupGetter__", "__lookupSetter__",
   "__proto__"]

/-- Result of the JavaScript property read `COURSES[courseKey]`: an own
course config, `undefined`, or a truthy value inherited from
`Object.prototype` (which has no usable `schedules` array). -/
inductive JsIndex where
  | own (c : Course)
  | undef
  | proto
deriving DecidableEq

/-- `COURSES[courseKey]` including the prototype chain of the object
literal. -/
def jsIndexCourses (cs : List (String × Course)) (key : String) : JsIndex :=
  match lookupCourse cs key with
  | some c => JsIndex.own c
  | none => if key ∈ objectProtoKeys then JsIndex.proto else JsIndex.undef

/-- Outcome of a `fetchTeeTimes` call: a normal return, or a raised
`TypeError` (rejected promise) from iterating `course.schedules` when the
property lookup produced an inherited `Object.prototype` member. -/
inductive FetchOut where
  | ok (records : List TeeTimeRecord) (st : St) (calls : List UpstreamReq)
  | raised (st : St) (calls : List UpstreamReq)
deriving DecidableEq

/-- The state after a `fetchTeeTimes` call. -/
def FetchOut.stOf : FetchOut → St
  | FetchOut.ok _ st _ => st
  | FetchOut.raised st _ => st

/-- The upstream requests issued by a `fetchTeeTimes` call. -/
def FetchOut.callsOf : FetchOut → List UpstreamReq
  | FetchOut.ok _ _ calls => calls
  | FetchOut.raised _ calls => calls

/-- The records returned by a `fetchTeeTimes` call (none when it raised). -/
def FetchOut.recordsOf : FetchOut → List TeeTimeRecord
  | FetchOut.ok rs _ _ => rs
  | FetchOut.raised _ _ => []

/-- Models `fetchTeeTimes(courseKey, date, players)`: look the key up in
the registry (`return []` when the lookup is falsy, i.e. `undefined`),
then run the schedule loop. Indexing with an `Object.prototype` member
name passes the `!course` guard and then throws a `TypeError` when the
`for…of` iterates the absent `schedules`. -/
def fetchTeeTimes (U : Upstream) (now : Nat) (courseKey : String) (date : String)
    (players : Option Int) (st : St) : FetchOut :=
  match jsIndexCourses st.courses courseKey with
  | JsIndex.undef => FetchOut.ok [] st []
  | JsIndex.proto => FetchOut.raised st []
  | JsIndex.own course =>
    let r := fetchLoop U now courseKey date players course course.schedules.enum st
    FetchOut.ok r.1 r.2.1 r.2.2

/-! ## Sorting (`allTimes.sort(...)`) -/

/-- The sort comparator of the handler:
`if (!a.time || !b.time) return 0; return a.time.localeCompare(b.time)`.
An absent time or the empty string is falsy and compares as "no
preference". -/
def jsTimeCmp (a b : TeeTimeRecord) : Ordering :=
  match a.time, b.time with
  | some x, some y => if x = "" ∨ y = "" then Ordering.eq else strCompare x y
  | _, _ => Ordering.eq

/-- `a` may be placed before `b` (the comparator does not return a
positive number). -/
def timeLe (a b : TeeTimeRecord) : Bool :=
  jsTimeCmp a b ≠ Ordering.gt

/-- A record whose `time` is falsy for the comparator (absent or empty). -/
def falsyTime (r : TeeTimeRecord) : Bool :=
  match r.time with
  | none => true
  | some s => s = ""

/-- Stable insertion of an element into a sorted list, placing the new
(later) element behind every existing element it does not strictly
precede. -/
def jsOrderedInsert (le : α → α → Bool) (x : α) : List α → List α
  | [] => [x]
  | y :: ys => if le x y then x :: y :: ys else y :: jsOrderedInsert le x ys

/-- Models `Array.prototype.sort(comparator)` as a stable comparison sort
(ECMAScript mandates stability; for the inconsistent comparator above the
relative order of incomparable elements is implementation defined, and a
stable insertion sort reproduces the engine's binary-insertion behaviour
on the small arrays involved). -/
def jsSortBy (le : α → α → Bool) : List α → List α
  | [] => []
  | x :: xs => jsOrderedInsert le x (jsSortBy le xs)

/-! ## The `/api/teetimes` handler -/

/-- Outcome of the `Promise.all` fan-out over the requested course keys
(run in registration order; a rejected fetch rejects the whole join while
the sibling fetches still run to completion for their state effects). -/
inductive RunOut where
  | ok (records : List TeeTimeRecord) (st : St) (calls : List UpstreamReq)
  | raised (st : St) (calls : List UpstreamReq)
deriving DecidableEq

/-- The state after the fan-out. -/
def RunOut.stOf : RunOut → St
  | RunOut.ok _ st _ => st
  | RunOut.raised st _ => st

/-- The upstream requests issued during the fan-out. -/
def RunOut.callsOf : RunOut → List UpstreamReq
  | RunOut.ok _ _ calls => calls
  | RunOut.raised _ calls => calls

/-- The flattened records of the fan-out (none when it rejected). -/
def RunOut.recordsOf : RunOut → List TeeTimeRecord
  | RunOut.ok rs _ _ => rs
  | RunOut.raised _ _ => []

/-- `courseKeys.map(key => fetchTeeTimes(key.trim(), date, players))`
joined by `Promise.all`. -/
def runKeys (U : Upstream) (now : Nat) (date : String) (players : Option Int) :
    List String → St → RunOut
  | [], st => RunOut.ok [] st []
  | k :: ks, st =>
    match fetchTeeTimes U now (jsTrim k) date players st with
    | FetchOut.raised st1 c1 =>
      match runKeys U now date players ks st1 with
      | RunOut.ok _ st2 c2 => RunOut.raised st2 (c1 ++ c2)
      | RunOut.raised st2 c2 => RunOut.raised st2 (c1 ++ c2)
    | FetchOut.ok rs st1 c1 =>
      match runKeys U now date players ks st1 with
      | RunOut.ok rs2 st2 c2 => RunOut.ok (rs ++ rs2) st2 (c1 ++ c2)
      | RunOut.raised st2 c2 => RunOut.raised st2 (c1 ++ c2)

/-- The same fan-out over keys that are already trimmed (used to state
that the handler trims each supplied key before lookup). -/
def runKeysPlain (U : Upstream) (now : Nat) (date : String) (players : Option Int) :
    List String → St → RunOut
  | [], st => RunOut.ok [] st []
  | k :: ks, st =>
    match fetchTeeTimes U now k date players st with
    | FetchOut.raised st1 c1 =>
      match runKeysPlain U now date players ks st1 with
      | RunOut.ok _ st2 c2 => RunOut.raised st2 (c1 ++ c2)
      | RunOut.raised st2 c2 => RunOut.raised st2 (c1 ++ c2)
    | FetchOut.ok rs st1 c1 =>
      match runKeysPlain U now date players ks st1 with
      | RunOut.ok rs2 st2 c2 => RunOut.ok (rs ++ rs2) st2 (c1 ++ c2)
      | RunOut.raised st2 c2 => RunOut.raised st2 (c1 ++ c2)

/-- The query parameters of a `GET /api/teetimes` request (all strings;
`none` when the parameter is omitted). -/
structure Query where
  date : Option String
  players : Option String
  courses : Option String
deriving DecidableEq

/-- The party size used by the handler: `parseInt(players)` with the
destructuring default `2` when the parameter is omitted (`parseInt(2)`
is `2`). -/
def playersOf (q : Query) : Option Int :=
  match q.players with
  | none => some 2
  | some s => jsParseInt s

/-- The requested course keys: `courses ? courses.split(',') :
Object.keys(COURSES)` (an empty `courses` string is falsy). -/
def courseKeysOf (st : St) (courses : Option String) : List String :=
  match courses with
  | none => st.courses.map Prod.fst
  | some s => if s = "" then st.courses.map Prod.fst else jsSplitComma s

/-- The JSON response of the handler. -/
inductive ApiResp where
  | badRequest (error : String)
  | serverError (error : String)
  | ok (date : String) (players : Option Int) (count : Nat) (teetimes : List TeeTimeRecord)
deriving DecidableEq

/-- The HTTP status of a response. -/
def ApiResp.status : ApiResp → Nat
  | ApiResp.badRequest _ => 400
  | ApiResp.serverError _ => 500
  | ApiResp.ok _ _ _ _ => 200

/-- The `error` field of the response body, if any. -/
def ApiResp.errorField : ApiResp → Option String
  | ApiResp.badRequest e => some e
  | ApiResp.serverError e => some e
  | ApiResp.ok _ _ _ _ => none

/-- Models the `GET /api/teetimes` handler: `400` when `date` is falsy
(absent or empty), otherwise fan out over the requested course keys,
flatten, sort by the time comparator and answer with the echoed date, the
parsed party size, the count and the sorted records; a rejected fetch is
caught and answered with a `500`. -/
def handleTeeTimes (U : Upstream) (now : Nat) (q : Query) (st : St) :
    ApiResp × St × List UpstreamReq :=
  match q.date with
  | none => (ApiResp.badRequest "date parameter required (MM-DD-YYYY)", st, [])
  | some date =>
    if date = "" then (ApiResp.badRequest "date parameter required (MM-DD-YYYY)", st, [])
    else
      match runKeys U now date (playersOf q) (courseKeysOf st q.courses) st with
      | RunOut.raised st1 calls =>
        (ApiResp.serverError "Failed to fetch tee times", st1, calls)
      | RunOut.ok rs st1 calls =>
        let sorted := jsSortBy timeLe rs
        (ApiResp.ok date (playersOf q) sorted.length sorted, st1, calls)

/-- What one schedule contributes to a fetch as a function of the initial
state and its own upstream response alone (meaningful when its id is
statically known): the cached records on a hit, otherwise the normalized
upstream response, `[]` on an HTTP error. -/
def schedContrib (U : Upstream) (now : Nat) (courseKey : String) (date : String)
    (players : Option Int) (course : Course) (sch : Schedule) (st : St) :
    List TeeTimeRecord :=
  match sch.id with
  | none => []
  | some sid =>
    if sid = 0 then []
    else
      match cacheGetTimes st.cache (CKey.times courseKey sid date players) now with
      | some rs => rs
      | none =>
        match U.times sid date players with
        | TimesResp.err => []
        | TimesResp.ok dat => (dat.getD []).map (slotToRecord course courseKey sch)

/-- The handler's response assembly from a fan-out outcome (used to state
which course keys the handler fans out over). -/
def handleFromRun (date : String) (players : Option Int) : RunOut → ApiResp × St × List UpstreamReq
  | RunOut.raised st1 calls => (ApiResp.serverError "Failed to fetch tee times", st1, calls)
  | RunOut.ok rs st1 calls =>
    let sorted := jsSortBy timeLe rs
    (ApiResp.ok date players sorted.length sorted, st1, calls)

/-! ## Concrete fixtures -/

/-- The boot state: the static registry and an empty cache. -/
def stReg : St := { courses := COURSES, cache := [] }

/-- An upstream slot with a 9:00 tee time. -/
def slotB : Slot :=
  { time := some "2025-06-15T09:00:00", available_spots := some 4, green_fee := some 45,
    cart_fee := some 0, players := none, holes := some 18 }

/-- An upstream slot with no time field. -/
def slotM : Slot :=
  { time := none, available_spots := some 2, green_fee := some 30,
    cart_fee := some 0, players := none, holes := some 18 }

/-- An upstream slot with an 8:00 tee time. -/
def slotA : Slot :=
  { time := some "2025-06-15T08:00:00", available_spots := some 2, green_fee := some 30,
    cart_fee := some 0, players := none, holes := some 18 }

/-- The record `slotB` normalizes to for LaFortune Park. -/
def recB : TeeTimeRecord :=
  { course := "LaFortune Park", courseKey := "lafortune",
    scheduleLabel := "Championship (18 holes)", time := some "2025-06-15T09:00:00",
    available_spots := some 4, green_fee := some 45, cart_fee := some 0, players := [],
    holes := some 18,
    bookingUrl := "https://foreupsoftware.com/index.php/booking/20922/6194#teetimes" }

/-- The record `slotM` normalizes to for LaFortune Park. -/
def recM : TeeTimeRecord :=
  { course := "LaFortune Park", courseKey := "lafortune",
    scheduleLabel := "Championship (18 holes)", time := none,
    available_spots := some 2, green_fee := some 30, cart_fee := some 0, players := [],
    holes := some 18,
    bookingUrl := "https://foreupsoftware.com/index.php/booking/20922/6194#teetimes" }

/-- The record `slotA` normalizes to for Battle Creek. -/
def recA : TeeTimeRecord :=
  { course := "Battle Creek", courseKey := "battlecreek", scheduleLabel := "Battle Creek",
    time := some "2025-06-15T08:00:00", available_spots := some 2, green_fee := some 30,
    cart_fee := some 0, players := [], holes := some 18,
    bookingUrl := "https://foreupsoftware.com/index.php/booking/index/22756#teetimes" }

/-- The record `slotA` normalizes to for LaFortune Park. -/
def recAL : TeeTimeRecord :=
  { course := "LaFortune Park", courseKey := "lafortune",
    scheduleLabel := "Championship (18 holes)", time := some "2025-06-15T08:00:00",
    available_spots := some 2, green_fee := some 30, cart_fee := some 0, players := [],
    holes := some 18,
    bookingUrl := "https://foreupsoftware.com/index.php/booking/20922/6194#teetimes" }

/-- An upstream on which every request fails. -/
def Uerr : Upstream :=
  { times := fun _ _ _ => TimesResp.err, disc := fun _ => DiscResp.err }

/-- An upstream where LaFortune answers a 9:00 slot and a slot without a
time, and Battle Creek answers an 8:00 slot. -/
def Ucex : Upstream :=
  { times := fun sid _ _ =>
      if sid = 6194 then TimesResp.ok (some [slotB, slotM])
      else if sid = 11838 then TimesResp.ok (some [slotA]) else TimesResp.err
    disc := fun _ => DiscResp.err }

/-- An upstream where LaFortune answers a 9:00 slot and Battle Creek an
8:00 slot (all times present). -/
def Uwit : Upstream :=
  { times := fun sid _ _ =>
      if sid = 6194 then TimesResp.ok (some [slotB])
      else if sid = 11838 then TimesResp.ok (some [slotA]) else TimesResp.err
    disc := fun _ => DiscResp.err }

/-- An upstream where LaFortune answers the 8:00 slot. -/
def UA : Upstream :=
  { times := fun sid _ _ =>
      if sid = 6194 then TimesResp.ok (some [slotA]) else TimesResp.err
    disc := fun _ => DiscResp.err }

/-- An upstream where LaFortune now answers the 9:00 slot instead. -/
def UB : Upstream :=
  { times := fun sid _ _ =>
      if sid = 6194 then TimesResp.ok (some [slotB]) else TimesResp.err
    disc := fun _ => DiscResp.err }

/-- A request with no query parameters at all. -/
def qNoDate : Query := { date := none, players := none, courses := none }

/-- A request for two courses on a valid date. -/
def qcex : Query :=
  { date := some "06-15-2025", players := none, courses := some "lafortune,battlecreek" }

/-- A request whose courses list is an `Object.prototype` member name. -/
def qproto : Query :=
  { date := some "06-15-2025", players := none, courses := some "toString" }

/-- A request for just LaFortune Park. -/
def qKeyW : Query :=
  { date := some "06-15-2025", players := none, courses := some "lafortune" }

/-- The LaFortune Park registry entry (as a standalone value). -/
def lafortuneCourse : Course :=
  { name := "LaFortune Park", courseId := 20922,
    schedules := [{ id := some 6194, label := "Championship (18 holes)" }],
    bookingUrl := "https://foreupsoftware.com/index.php/booking/20922/6194#teetimes" }

/-- A hypothetical course whose schedule id is not statically known
(exercising the discovery path). -/
def mysteryCourse : Course :=
  { name := "Mystery Links", courseId := 999,
    schedules := [{ id := none, label := "Main" }],
    bookingUrl := "https://example.com/booking" }

/-- A registry additionally containing the discovery-dependent course. -/
def stMyst : St := { courses := ("mystery", mysteryCourse) :: COURSES, cache := [] }

/-- An upstream whose booking page for facility 999 embeds a schedule id. -/
def Udisc : Upstream :=
  { times := fun _ _ _ => TimesResp.err
    disc := fun cid =>
      if cid = 999 then DiscResp.ok "var DEFAULT_FILTER has \"schedule_id\": 4242 embedded" else DiscResp.err }

/-! ## Specification predicates -/

/-- The pattern `f` has its first (leftmost) match of value `n` at offset
`i` of the string. -/
def FirstPatMatch (f : List Char → Option Nat) (body : String) (n : Nat) : Prop :=
  ∃ i, f (body.toList.drop i) = some n ∧ ∀ j < i, f (body.toList.drop j) = none

/-- All schedules of the course have statically known truthy ids. -/
@[reducible] def AllKnown (course : Course) : Prop :=
  ∀ sch ∈ course.schedules, truthyN sch.id = true

/-- The schedule ids of the course are pairwise distinct. -/
@[reducible] def DistinctIds (course : Course) : Prop :=
  course.schedules.Pairwise (fun a b => a.id ≠ b.id)

/-- The immutable face of a course config: display name, booking url and
schedule labels (everything except the mutable schedule ids). -/
def viewOfCourse (c : Course) : String × String × List String :=
  (c.name, c.bookingUrl, c.schedules.map Schedule.label)

/-- Two registries with the same keys and the same course views. -/
def SameView (cs cs' : List (String × Course)) : Prop :=
  List.Forall₂ (fun e e' : String × Course =>
    e'.1 = e.1 ∧ viewOfCourse e'.2 = viewOfCourse e.2) cs cs'

/-- The record invariant: the record's `courseKey` resolves in the
registry, and its display name, schedule label and booking url are those
of the resolved config. -/
def recordOk (cs : List (String × Course)) (r : TeeTimeRecord) : Prop :=
  ∃ c, lookupCourse cs r.courseKey = some c ∧ r.course = c.name ∧
    r.scheduleLabel ∈ c.schedules.map Schedule.label ∧ r.bookingUrl = c.bookingUrl

/-- Every times entry of the cache satisfies the record invariant with
respect to the registry `cs`. -/
def cacheRecordsOk (cs : List (String × Course)) (c : Cache) : Prop :=
  ∀ k rs e, (k, CVal.times rs, e) ∈ c → ∀ r ∈ rs, recordOk cs r

/-- All cached times records reference a course of the current registry. -/
def CacheGood (st : St) : Prop :=
  cacheRecordsOk st.courses st.cache

/-- Permitted evolution of one schedule entry within a run: the label is
untouched and the id is either unchanged or goes from falsy (unknown) to
truthy (a discovered value). -/
def SchedEvolve (s s' : Schedule) : Prop :=
  s'.label = s.label ∧ (s'.id = s.id ∨ (truthyN s.id = false ∧ truthyN s'.id = true))

/-- Permitted evolution of one course config: everything fixed except
lazily populated schedule ids. -/
def CourseEvolve (c c' : Course) : Prop :=
  c'.name = c.name ∧ c'.courseId = c.courseId ∧ c'.bookingUrl = c.bookingUrl ∧
    List.Forall₂ SchedEvolve c.schedules c'.schedules

/-- Permitted evolution of the registry. -/
def CoursesEvolve (cs cs' : List (String × Course)) : Prop :=
  List.Forall₂ (fun e e' : String × Course => e'.1 = e.1 ∧ CourseEvolve e.2 e'.2) cs cs'

/-! ## Cache lemmas -/

theorem cacheGet_cons (k0 : CKey) (v0 : CVal) (e0 : Nat) (tl : Cache) (k : CKey) (t : Nat) :
    cacheGet ((k0, v0, e0) :: tl) k t =
      if k0 = k then (if t < e0 then some v0 else none) else cacheGet tl k t := by
  by_cases hk : k0 = k
  · unfold cacheGet
    rw [List.find?_cons_of_pos tl (by simpa using hk), if_pos hk]
  · unfold cacheGet
    rw [List.find?_cons_of_neg tl (by simpa using hk), if_neg hk]

theorem cacheGet_set_self (c : Cache) (k : CKey) (v : CVal) (e t : Nat) :
    cacheGet (cacheSet c k v e) k t = if t < e then some v else none := by
  rw [show cacheSet c k v e = (k, v, e) :: c from rfl, cacheGet_cons, if_pos rfl]

theorem cacheGet_set_ne (c : Cache) (k k' : CKey) (v : CVal) (e t : Nat) (h : k' ≠ k) :
    cacheGet (cacheSet c k v e) k' t = cacheGet c k' t := by
  rw [show cacheSet c k v e = (k, v, e) :: c from rfl, cacheGet_cons,
    if_neg (fun heq => h heq.symm)]

theorem cacheGetTimes_ext {c c' : Cache} {k : CKey} {t : Nat}
    (h : cacheGet c' k t = cacheGet c k t) :
    cacheGetTimes c' k t = cacheGetTimes c k t := by
  simp [cacheGetTimes, h]

theorem cacheGetSched_ext {c c' : Cache} {k : CKey} {t : Nat}
    (h : cacheGet c' k t = cacheGet c k t) :
    cacheGetSched c' k t = cacheGetSched c k t := by
  simp [cacheGetSched, h]

/-- The records stored under a times key are in the cache list. -/
theorem cacheGetTimes_mem {c : Cache} {k : CKey} {t : Nat} {rs : List TeeTimeRecord}
    (h : cacheGetTimes c k t = some rs) : ∃ e, (k, CVal.times rs, e) ∈ c := by
  induction c with
  | nil => simp [cacheGetTimes, cacheGet] at h
  | cons hd tl ih =>
    rcases hd with ⟨k0, v0, e0⟩
    unfold cacheGetTimes at h
    rw [cacheGet_cons] at h
    by_cases hk : k0 = k
    · subst hk
      rw [if_pos rfl] at h
      by_cases ht : t < e0
      · rw [if_pos ht] at h
        cases v0 with
        | schedId n => simp at h
        | times rs0 =>
          simp only [Option.some.injEq] at h
          exact ⟨e0, by simp [h]⟩
      · rw [if_neg ht] at h; simp at h
    · rw [if_neg hk] at h
      rcases ih h with ⟨e, he⟩
      exact ⟨e, by simp [he]⟩

/-! ## Sort lemmas -/

theorem perm_jsOrderedInsert (le : α → α → Bool) (x : α) (l : List α) :
    List.Perm (jsOrderedInsert le x l) (x :: l) := by
  induction l with
  | nil => simp [jsOrderedInsert]
  | cons y ys ih =>
    by_cases h : le x y
    · simp [jsOrderedInsert, h]
    · simp only [jsOrderedInsert, h, Bool.false_eq_true, if_false]
      exact List.Perm.trans (List.Perm.cons y ih) (List.Perm.swap x y ys)

theorem perm_jsSortBy (le : α → α → Bool) (l : List α) : List.Perm (jsSortBy le l) l := by
  induction l with
  | nil => simp [jsSortBy]
  | cons x xs ih =>
    exact List.Perm.trans (perm_jsOrderedInsert le x _) (List.Perm.cons x ih)

theorem mem_jsSortBy (le : α → α → Bool) (l : List α) (a : α) :
    a ∈ jsSortBy le l ↔ a ∈ l :=
  (perm_jsSortBy le l).mem_iff

theorem length_jsSortBy (le : α → α → Bool) (l : List α) :
    (jsSortBy le l).length = l.length :=
  (perm_jsSortBy le l).length_eq

theorem mem_jsOrderedInsert (le : α → α → Bool) (x : α) (l : List α) (a : α) :
    a ∈ jsOrderedInsert le x l ↔ a = x ∨ a ∈ l := by
  rw [(perm_jsOrderedInsert le x l).mem_iff]; simp

/-- Inserting an element that the comparator lets precede everything puts
it at the front. -/
theorem jsOrderedInsert_front (le : α → α → Bool) (x : α) (l : List α)
    (h : ∀ y, le x y = true) : jsOrderedInsert le x l = x :: l := by
  cases l with
  | nil => rfl
  | cons y ys => simp [jsOrderedInsert, h y]

theorem filter_jsOrderedInsert_neg (p : α → Bool) (le : α → α → Bool) (x : α) (l : List α)
    (h : p x = false) : (jsOrderedInsert le x l).filter p = l.filter p := by
  induction l with
  | nil => simp [jsOrderedInsert, h]
  | cons y ys ih =>
    by_cases hle : le x y
    · simp [jsOrderedInsert, hle, List.filter_cons, h]
    · simp only [jsOrderedInsert, hle, Bool.false_eq_true, if_false, List.filter_cons]
      by_cases hy : p y <;> simp [hy, ih]

/-- The stable sort leaves the subsequence of elements the comparator
treats as always-placeable (records with a falsy time) in input order. -/
theorem filter_jsSortBy (p : α → Bool) (le : α → α → Bool) (l : List α)
    (hfr : ∀ x y, p x = true → le x y = true) :
    (jsSortBy le l).filter p = l.filter p := by
  induction l with
  | nil => rfl
  | cons x xs ih =>
    by_cases hx : p x
    · have : jsOrderedInsert le x (jsSortBy le xs) = x :: jsSortBy le xs :=
        jsOrderedInsert_front le x _ (fun y => hfr x y hx)
      simp only [jsSortBy, this, List.filter_cons, hx, if_true, ih]
    · simp only [jsSortBy]
      rw [filter_jsOrderedInsert_neg p le x _ (by simpa using hx), ih]
      simp [List.filter_cons, hx]

/-- After inserting into a list sorted on elements satisfying `P`, the
result is sorted, for a comparator total and transitive on `P`. -/
theorem pairwise_jsOrderedInsert (le : α → α → Bool) (P : α → Prop)
    (htot : ∀ a b, P a → P b → le a b = true ∨ le b a = true)
    (htrans : ∀ a b c, P a → P b → P c → le a b = true → le b c = true → le a c = true)
    (x : α) (hx : P x) (l : List α) (hl : ∀ a ∈ l, P a)
    (hs : List.Pairwise (fun a b => le a b = true) l) :
    List.Pairwise (fun a b => le a b = true) (jsOrderedInsert le x l) := by
  induction l with
  | nil => simp [jsOrderedInsert]
  | cons y ys ih =>
    rcases List.pairwise_cons.mp hs with ⟨hy, hys⟩
    by_cases hle : le x y
    · simp only [jsOrderedInsert, hle, if_true]
      refine List.pairwise_cons.mpr ⟨?_, hs⟩
      intro b hb
      rcases List.mem_cons.mp hb with rfl | hb
      · exact hle
      · exact htrans x y b hx (hl y (by simp)) (hl b (by simp [hb])) hle (hy b hb)
    · simp only [jsOrderedInsert, hle, Bool.false_eq_true, if_false]
      refine List.pairwise_cons.mpr ⟨?_, ih (fun a ha => hl a (by simp [ha])) hys⟩
      intro b hb
      rcases (mem_jsOrderedInsert le x ys b).mp hb with rfl | hb
      · rcases htot b y hx (hl y (by simp)) with h | h
        · exact absurd h hle
        · exact h
      · exact hy b hb

theorem pairwise_jsSortBy (le : α → α → Bool) (P : α → Prop)
    (htot : ∀ a b, P a → P b → le a b = true ∨ le b a = true)
    (htrans : ∀ a b c, P a → P b → P c → le a b = true → le b c = true → le a c = true)
    (l : List α) (hl : ∀ a ∈ l, P a) :
    List.Pairwise (fun a b => le a b = true) (jsSortBy le l) := by
  induction l with
  | nil => simp [jsSortBy]
  | cons x xs ih =>
    refine pairwise_jsOrderedInsert le P htot htrans x (hl x (by simp)) _ ?_
      (ih (fun a ha => hl a (by simp [ha])))
    intro a ha
    exact hl a (by simp [(mem_jsSortBy le xs a).mp ha])

/-! ## Comparator order lemmas -/

theorem lexCompare_eq_iff : ∀ x y : List Char, lexCompare x y = Ordering.eq ↔ x = y := by
  intro x
  induction x with
  | nil => intro y; cases y <;> simp [lexCompare]
  | cons a as ih =>
    intro y
    cases y with
    | nil => simp [lexCompare]
    | cons b bs =>
      by_cases hab : a < b
      · simp only [lexCompare, if_pos hab]
        constructor
        · intro h; exact absurd h (by simp)
        · intro h; injection h with h1 _; exact absurd (h1 ▸ hab) (lt_irrefl b)
      · by_cases hba : b < a
        · simp only [lexCompare, if_neg hab, if_pos hba]
          constructor
          · intro h; exact absurd h (by simp)
          · intro h; injection h with h1 _; exact absurd (h1 ▸ hba) (lt_irrefl b)
        · have hab2 : a = b := le_antisymm (not_lt.mp hba) (not_lt.mp hab)
          subst hab2
          simp only [lexCompare, if_neg hab, if_neg hba, ih bs]
          constructor
          · intro h; rw [h]
          · intro h; injection h

theorem lexCompare_gt_iff_lt : ∀ x y : List Char,
    lexCompare x y = Ordering.gt ↔ lexCompare y x = Ordering.lt := by
  intro x
  induction x with
  | nil => intro y; cases y <;> simp [lexCompare]
  | cons a as ih =>
    intro y
    cases y with
    | nil => simp [lexCompare]
    | cons b bs =>
      by_cases hab : a < b
      · have hba : ¬ b < a := lt_asymm hab
        simp [lexCompare, hab, hba]
      · by_cases hba : b < a
        · simp [lexCompare, hab, hba]
        · simp [lexCompare, hab, hba, ih bs]

theorem lexCompare_lt_trans : ∀ x y z : List Char,
    lexCompare x y = Ordering.lt → lexCompare y z = Ordering.lt →
    lexCompare x z = Ordering.lt := by
  intro x
  induction x with
  | nil =>
    intro y z hxy hyz
    cases y with
    | nil => exact hyz
    | cons b bs =>
      cases z with
      | nil => simp [lexCompare] at hyz
      | cons c cs => simp [lexCompare]
  | cons a as ih =>
    intro y z hxy hyz
    cases y with
    | nil => simp [lexCompare] at hxy
    | cons b bs =>
      cases z with
      | nil => simp [lexCompare] at hyz
      | cons c cs =>
        by_cases hab : a < b
        · by_cases hbc : b < c
          · have hac : a < c := lt_trans hab hbc
            simp [lexCompare, hac]
          · by_cases hcb : c < b
            · simp only [lexCompare, if_neg hbc, if_pos hcb] at hyz
              exact absurd hyz (by simp)
            · have : b = c := le_antisymm (not_lt.mp hcb) (not_lt.mp hbc)
              subst this
              simp [lexCompare, hab]
        · by_cases hba : b < a
          · simp only [lexCompare, if_neg hab, if_pos hba] at hxy
            exact absurd hxy (by simp)
          · have hab2 : a = b := le_antisymm (not_lt.mp hba) (not_lt.mp hab)
            subst hab2
            simp only [lexCompare, if_neg hab, if_neg hba] at hxy
            by_cases hbc : a < c
            · simp [lexCompare, hbc]
            · by_cases hcb : c < a
              · simp only [lexCompare, if_neg hbc, if_pos hcb] at hyz
                exact absurd hyz (by simp)
              · have hac : a = c := le_antisymm (not_lt.mp hcb) (not_lt.mp hbc)
                subst hac
                have hred : ∀ us vs : List Char,
                    lexCompare (a :: us) (a :: vs) = lexCompare us vs := by
                  intro us vs
                  simp [lexCompare]
                rw [hred] at hyz
                rw [hred]
                exact ih bs cs hxy hyz

/-- A record with a falsy time may be placed before anything. -/
theorem timeLe_of_falsy_left {a : TeeTimeRecord} (b : TeeTimeRecord)
    (h : falsyTime a = true) : timeLe a b = true := by
  cases hta : a.time with
  | none =>
    cases htb : b.time <;> simp [timeLe, jsTimeCmp, hta, htb]
  | some s =>
    have hs : s = "" := by simpa [falsyTime, hta] using h
    cases htb : b.time <;> simp [timeLe, jsTimeCmp, hta, htb, hs]

/-- The comparator is total on records with a present time. -/
theorem timeLe_total_present (a b : TeeTimeRecord)
    (ha : falsyTime a = false) (hb : falsyTime b = false) :
    timeLe a b = true ∨ timeLe b a = true := by
  cases hta : a.time with
  | none => simp [falsyTime, hta] at ha
  | some x =>
    cases htb : b.time with
    | none => simp [falsyTime, htb] at hb
    | some y =>
      have hx : ¬ x = "" := by simpa [falsyTime, hta] using ha
      have hy : ¬ y = "" := by simpa [falsyTime, htb] using hb
      have hxy : ¬ (x = "" ∨ y = "") := by simp [hx, hy]
      have hyx : ¬ (y = "" ∨ x = "") := by simp [hx, hy]
      by_cases hgt : strCompare x y = Ordering.gt
      · right
        have hlt : strCompare y x = Ordering.lt :=
          (lexCompare_gt_iff_lt x.toList y.toList).mp hgt
        simp [timeLe, jsTimeCmp, hta, htb, hyx, hlt]
      · left
        simp [timeLe, jsTimeCmp, hta, htb, hxy, hgt]

/-- The comparator is transitive on records with a present time. -/
theorem timeLe_trans_present (a b c : TeeTimeRecord)
    (ha : falsyTime a = false) (hb : falsyTime b = false) (hc : falsyTime c = false)
    (hab : timeLe a b = true) (hbc : timeLe b c = true) : timeLe a c = true := by
  cases hta : a.time with
  | none => simp [falsyTime, hta] at ha
  | some x =>
    cases htb : b.time with
    | none => simp [falsyTime, htb] at hb
    | some y =>
      cases htc : c.time with
      | none => simp [falsyTime, htc] at hc
      | some z =>
        have hx : ¬ x = "" := by simpa [falsyTime, hta] using ha
        have hy : ¬ y = "" := by simpa [falsyTime, htb] using hb
        have hz : ¬ z = "" := by simpa [falsyTime, htc] using hc
        have hxy : ¬ (x = "" ∨ y = "") := by simp [hx, hy]
        have hyz : ¬ (y = "" ∨ z = "") := by simp [hy, hz]
        have hxz : ¬ (x = "" ∨ z = "") := by simp [hx, hz]
        have hab2 : ¬ strCompare x y = Ordering.gt := by
          simpa [timeLe, jsTimeCmp, hta, htb, hxy] using hab
        have hbc2 : ¬ strCompare y z = Ordering.gt := by
          simpa [timeLe, jsTimeCmp, htb, htc, hyz] using hbc
        have hac2 : ¬ strCompare x z = Ordering.gt := by
          intro hgt
          unfold strCompare at hab2 hbc2 hgt
          cases hcase : lexCompare x.toList y.toList with
          | lt =>
            cases hcase2 : lexCompare y.toList z.toList with
            | lt =>
              have := lexCompare_lt_trans _ _ _ hcase hcase2
              rw [this] at hgt
              exact absurd hgt (by simp)
            | eq =>
              have heq : y.toList = z.toList := (lexCompare_eq_iff _ _).mp hcase2
              rw [← heq] at hgt
              rw [hgt] at hcase
              exact absurd hcase (by simp)
            | gt => exact hbc2 hcase2
          | eq =>
            have heq : x.toList = y.toList := (lexCompare_eq_iff _ _).mp hcase
            rw [heq] at hgt
            exact hbc2 hgt
          | gt => exact hab2 hcase
        simp [timeLe, jsTimeCmp, hta, htc, hxz, hac2]

/-! ## Scan characterization (discovery patterns) -/


theorem scanFirst_eq_some_iff (f : List Char → Option Nat) (hf : f [] = none) :
    ∀ (s : List Char) (n : Nat),
      scanFirst f s = some n ↔
        ∃ i, f (s.drop i) = some n ∧ ∀ j < i, f (s.drop j) = none := by
  intro s
  induction s with
  | nil =>
    intro n
    simp only [scanFirst, List.drop_nil]
    constructor
    · intro h; exact absurd h (by simp)
    · rintro ⟨i, hi, _⟩
      rw [hf] at hi
      exact absurd hi (by simp)
  | cons c cs ih =>
    intro n
    constructor
    · intro h
      unfold scanFirst at h
      cases h0 : f (c :: cs) with
      | some m =>
        rw [h0] at h
        injection h with h
        subst h
        exact ⟨0, by simpa using h0, by intro j hj; exact absurd hj (Nat.not_lt_zero j)⟩
      | none =>
        rw [h0] at h
        rcases (ih n).mp h with ⟨i, hi, hlt⟩
        refine ⟨i + 1, by simpa using hi, ?_⟩
        intro j hj
        cases j with
        | zero => simpa using h0
        | succ j0 =>
          have : j0 < i := Nat.lt_of_succ_lt_succ hj
          simpa using hlt j0 this
    · rintro ⟨i, hi, hlt⟩
      unfold scanFirst
      cases i with
      | zero =>
        simp only [List.drop_zero] at hi
        rw [hi]
      | succ i0 =>
        have h0 : f (c :: cs) = none := by simpa using hlt 0 (Nat.succ_pos i0)
        rw [h0]
        refine (ih n).mpr ⟨i0, by simpa using hi, ?_⟩
        intro j hj
        have : j + 1 < i0 + 1 := Nat.succ_lt_succ hj
        simpa using hlt (j + 1) this

theorem scanFirst_eq_none_iff (f : List Char → Option Nat) (hf : f [] = none) :
    ∀ s : List Char, scanFirst f s = none ↔ ∀ i, f (s.drop i) = none := by
  intro s
  induction s with
  | nil =>
    constructor
    · intro _ i
      simpa using hf
    · intro _
      rfl
  | cons c cs ih =>
    constructor
    · intro h i
      unfold scanFirst at h
      cases h0 : f (c :: cs) with
      | some m => rw [h0] at h; exact absurd h (by simp)
      | none =>
        rw [h0] at h
        cases i with
        | zero => simpa using h0
        | succ i0 => simpa using (ih.mp h) i0
    · intro h
      unfold scanFirst
      have h0 : f (c :: cs) = none := by simpa using h 0
      rw [h0]
      exact ih.mpr (fun i => by simpa using h (i + 1))

theorem matchScheduleIdPat_nil : matchScheduleIdPat [] = none := rfl

theorem matchIdFacilityPat_nil : matchIdFacilityPat [] = none := rfl

/-! ## Per-schedule lemmas for statically known schedule ids -/

theorem truthyN_iff (o : Option Nat) : truthyN o = true ↔ ∃ n, o = some n ∧ n ≠ 0 := by
  cases o with
  | none => simp [truthyN]
  | some n => simp [truthyN]

theorem flatMap_congr_mem {l : List β} {f g : β → List γ} (h : ∀ b ∈ l, f b = g b) :
    l.flatMap f = l.flatMap g := by
  induction l with
  | nil => rfl
  | cons b bs ih =>
    simp only [List.flatMap_cons]
    rw [h b (by simp), ih (fun x hx => h x (by simp [hx]))]

/-- With a truthy statically known id, one loop iteration is exactly the
times part. -/
theorem stepSchedule_known (U : Upstream) (now : Nat) (ck date : String)
    (players : Option Int) (course : Course) (st : St) (i : Nat) (sch : Schedule)
    (sid : Nat) (h : sch.id = some sid) (h0 : sid ≠ 0) :
    stepSchedule U now ck date players course st i sch =
      ((fetchScheduleTimes U now ck date players course sch sid st).1,
       (fetchScheduleTimes U now ck date players course sch sid st).2.1,
       (fetchScheduleTimes U now ck date players course sch sid st).2.2) := by
  have ht2 : truthyN (some sid) = true := by simp [truthyN, h0]
  simp [stepSchedule, resolveScheduleId, h, ht2, h0]

theorem fetchScheduleTimes_records_eq_contrib (U : Upstream) (now : Nat) (ck date : String)
    (players : Option Int) (course : Course) (st : St) (sch : Schedule) (sid : Nat)
    (h : sch.id = some sid) (h0 : sid ≠ 0) :
    (fetchScheduleTimes U now ck date players course sch sid st).1 =
      schedContrib U now ck date players course sch st := by
  simp only [fetchScheduleTimes, schedContrib]
  rw [h]
  simp only [h0, if_false]
  cases hc : cacheGetTimes st.cache (CKey.times ck sid date players) now with
  | some rs => rfl
  | none =>
    cases ht : U.times sid date players with
    | err => rfl
    | ok dat => rfl

theorem fetchScheduleTimes_courses (U : Upstream) (now : Nat) (ck date : String)
    (players : Option Int) (course : Course) (st : St) (sch : Schedule) (sid : Nat) :
    (fetchScheduleTimes U now ck date players course sch sid st).2.1.courses = st.courses := by
  simp only [fetchScheduleTimes]
  cases hc : cacheGetTimes st.cache (CKey.times ck sid date players) now with
  | some rs => rfl
  | none =>
    cases ht : U.times sid date players with
    | err => rfl
    | ok dat => rfl

theorem fetchScheduleTimes_frame (U : Upstream) (now : Nat) (ck date : String)
    (players : Option Int) (course : Course) (st : St) (sch : Schedule) (sid : Nat)
    (k : CKey) (t : Nat) (hk : k ≠ CKey.times ck sid date players) :
    cacheGet (fetchScheduleTimes U now ck date players course sch sid st).2.1.cache k t =
      cacheGet st.cache k t := by
  simp only [fetchScheduleTimes]
  cases hc : cacheGetTimes st.cache (CKey.times ck sid date players) now with
  | some rs => rfl
  | none =>
    cases ht : U.times sid date players with
    | err => rfl
    | ok dat =>
      simp only []
      exact cacheGet_set_ne _ _ _ _ _ _ hk

theorem fetchScheduleTimes_calls (U : Upstream) (now : Nat) (ck date : String)
    (players : Option Int) (course : Course) (st : St) (sch : Schedule) (sid : Nat) :
    ∀ r ∈ (fetchScheduleTimes U now ck date players course sch sid st).2.2,
      r = UpstreamReq.times sid date players := by
  simp only [fetchScheduleTimes]
  cases hc : cacheGetTimes st.cache (CKey.times ck sid date players) now with
  | some rs => simp
  | none =>
    cases ht : U.times sid date players with
    | err => simp
    | ok dat => simp

theorem fetchScheduleTimes_hit (U : Upstream) (now : Nat) (ck date : String)
    (players : Option Int) (course : Course) (st : St) (sch : Schedule) (sid : Nat)
    (rs : List TeeTimeRecord)
    (hhit : cacheGetTimes st.cache (CKey.times ck sid date players) now = some rs) :
    fetchScheduleTimes U now ck date players course sch sid st = (rs, st, []) := by
  simp only [fetchScheduleTimes]
  rw [hhit]

theorem fetchScheduleTimes_pos (U : Upstream) (now : Nat) (ck date : String)
    (players : Option Int) (course : Course) (st : St) (sch : Schedule) (sid : Nat)
    (hmiss : cacheGetTimes st.cache (CKey.times ck sid date players) now = none)
    (hok : U.times sid date players ≠ TimesResp.err) (t : Nat) (ht : t < now + 300) :
    cacheGetTimes (fetchScheduleTimes U now ck date players course sch sid st).2.1.cache
        (CKey.times ck sid date players) t =
      some (fetchScheduleTimes U now ck date players course sch sid st).1 := by
  simp only [fetchScheduleTimes]
  rw [hmiss]
  cases hu : U.times sid date players with
  | err => exact absurd hu hok
  | ok dat =>
    simp only []
    unfold cacheGetTimes
    rw [cacheGet_set_self, if_pos ht]

/-- A schedule contribution only depends on the cache through its own
times key. -/
theorem schedContrib_congr (U : Upstream) (now : Nat) (ck date : String)
    (players : Option Int) (course : Course) (sch : Schedule) {st st' : St}
    (h : ∀ sid, sch.id = some sid →
      cacheGetTimes st'.cache (CKey.times ck sid date players) now =
        cacheGetTimes st.cache (CKey.times ck sid date players) now) :
    schedContrib U now ck date players course sch st' =
      schedContrib U now ck date players course sch st := by
  unfold schedContrib
  cases hid : sch.id with
  | none => rfl
  | some sid =>
    by_cases h0 : sid = 0
    · simp [h0]
    · simp only [h0, if_false]
      rw [h sid hid]

/-! ## Loop lemmas for statically known schedule ids -/

theorem fetchLoop_known_courses (U : Upstream) (now : Nat) (ck date : String)
    (players : Option Int) (course : Course) :
    ∀ (l : List (Nat × Schedule)), (∀ p ∈ l, truthyN p.2.id = true) →
      ∀ st, (fetchLoop U now ck date players course l st).2.1.courses = st.courses := by
  intro l
  induction l with
  | nil => intro _ st; rfl
  | cons p rest ih =>
    intro hk st
    rcases p with ⟨i, sch⟩
    rcases (truthyN_iff sch.id).mp (hk (i, sch) (by simp)) with ⟨sid, hid, h0⟩
    simp only [fetchLoop, stepSchedule_known U now ck date players course st i sch sid hid h0]
    rw [ih (fun q hq => hk q (by simp [hq])) _]
    exact fetchScheduleTimes_courses U now ck date players course st sch sid

theorem fetchLoop_known_frame (U : Upstream) (now : Nat) (ck date : String)
    (players : Option Int) (course : Course) :
    ∀ (l : List (Nat × Schedule)), (∀ p ∈ l, truthyN p.2.id = true) →
      ∀ st (k : CKey) (t : Nat),
        (∀ p ∈ l, ∀ sid, p.2.id = some sid → k ≠ CKey.times ck sid date players) →
        cacheGet (fetchLoop U now ck date players course l st).2.1.cache k t =
          cacheGet st.cache k t := by
  intro l
  induction l with
  | nil => intro _ st k t _; rfl
  | cons p rest ih =>
    intro hk st k t havoid
    rcases p with ⟨i, sch⟩
    rcases (truthyN_iff sch.id).mp (hk (i, sch) (by simp)) with ⟨sid, hid, h0⟩
    simp only [fetchLoop, stepSchedule_known U now ck date players course st i sch sid hid h0]
    rw [ih (fun q hq => hk q (by simp [hq])) _ k t
      (fun q hq sid2 hsid2 => havoid q (by simp [hq]) sid2 hsid2)]
    exact fetchScheduleTimes_frame U now ck date players course st sch sid k t
      (havoid (i, sch) (by simp) sid hid)

theorem fetchLoop_known_noDisc (U : Upstream) (now : Nat) (ck date : String)
    (players : Option Int) (course : Course) :
    ∀ (l : List (Nat × Schedule)), (∀ p ∈ l, truthyN p.2.id = true) →
      ∀ st (cid : Nat),
        UpstreamReq.discovery cid ∉ (fetchLoop U now ck date players course l st).2.2 := by
  intro l
  induction l with
  | nil => intro _ st cid h; simp [fetchLoop] at h
  | cons p rest ih =>
    intro hk st cid h
    rcases p with ⟨i, sch⟩
    rcases (truthyN_iff sch.id).mp (hk (i, sch) (by simp)) with ⟨sid, hid, h0⟩
    rw [fetchLoop, stepSchedule_known U now ck date players course st i sch sid hid h0] at h
    rcases List.mem_append.mp h with h1 | h2
    · have := fetchScheduleTimes_calls U now ck date players course st sch sid _ h1
      simp at this
    · exact ih (fun q hq => hk q (by simp [hq])) _ cid h2

theorem fetchLoop_known_records (U : Upstream) (now : Nat) (ck date : String)
    (players : Option Int) (course : Course) :
    ∀ (l : List (Nat × Schedule)), (∀ p ∈ l, truthyN p.2.id = true) →
      l.Pairwise (fun p q => p.2.id ≠ q.2.id) →
      ∀ st, (fetchLoop U now ck date players course l st).1 =
        l.flatMap (fun p => schedContrib U now ck date players course p.2 st) := by
  intro l
  induction l with
  | nil => intro _ _ st; rfl
  | cons p rest ih =>
    intro hk hd st
    rcases p with ⟨i, sch⟩
    rcases (truthyN_iff sch.id).mp (hk (i, sch) (by simp)) with ⟨sid, hid, h0⟩
    rcases List.pairwise_cons.mp hd with ⟨hNe, hdrest⟩
    simp only [fetchLoop, stepSchedule_known U now ck date players course st i sch sid hid h0,
      List.flatMap_cons]
    rw [fetchScheduleTimes_records_eq_contrib U now ck date players course st sch sid hid h0]
    congr 1
    rw [ih (fun q hq => hk q (by simp [hq])) hdrest _]
    refine flatMap_congr_mem ?_
    intro q hq
    refine schedContrib_congr U now ck date players course q.2 ?_
    intro sid2 hsid2
    refine cacheGetTimes_ext ?_
    refine fetchScheduleTimes_frame U now ck date players course st sch sid _ _ ?_
    intro heq
    have hne : sch.id ≠ q.2.id := hNe q hq
    apply hne
    rw [hid, hsid2]
    injection heq with e1 e2 e3 e4
    rw [e2]

theorem fetchLoop_known_pos (U : Upstream) (now : Nat) (ck date : String)
    (players : Option Int) (course : Course) :
    ∀ (l : List (Nat × Schedule)), (∀ p ∈ l, truthyN p.2.id = true) →
      l.Pairwise (fun p q => p.2.id ≠ q.2.id) →
      ∀ st, ∀ p ∈ l, ∀ sid, p.2.id = some sid →
        cacheGetTimes st.cache (CKey.times ck sid date players) now = none →
        U.times sid date players ≠ TimesResp.err →
        ∀ t, t < now + 300 →
          cacheGetTimes (fetchLoop U now ck date players course l st).2.1.cache
              (CKey.times ck sid date players) t =
            some (schedContrib U now ck date players course p.2 st) := by
  intro l
  induction l with
  | nil => intro _ _ st p hp; simp at hp
  | cons q rest ih =>
    intro hk hd st p hp sid hsid hmiss hok t ht
    rcases q with ⟨i, sch⟩
    rcases (truthyN_iff sch.id).mp (hk (i, sch) (by simp)) with ⟨sidq, hidq, h0q⟩
    rcases List.pairwise_cons.mp hd with ⟨hNe, hdrest⟩
    simp only [fetchLoop, stepSchedule_known U now ck date players course st i sch sidq hidq h0q]
    rcases List.mem_cons.mp hp with rfl | hprest
    · -- the head schedule itself
      have hsid2 : sidq = sid := by
        rw [hidq] at hsid
        injection hsid
      subst hsid2
      have hpos := fetchScheduleTimes_pos U now ck date players course st sch sidq
        hmiss hok t ht
      have hframe : cacheGet (fetchLoop U now ck date players course rest
          (fetchScheduleTimes U now ck date players course sch sidq st).2.1).2.1.cache
            (CKey.times ck sidq date players) t =
          cacheGet (fetchScheduleTimes U now ck date players course sch sidq st).2.1.cache
            (CKey.times ck sidq date players) t := by
        refine fetchLoop_known_frame U now ck date players course rest
          (fun r hr => hk r (by simp [hr])) _ _ _ ?_
        intro r hr sid3 hsid3 heq
        have hne : (i, sch).2.id ≠ r.2.id := hNe r hr
        apply hne
        rw [hidq, hsid3]
        injection heq with e1 e2 e3 e4
        rw [e2]
      rw [cacheGetTimes_ext hframe, hpos,
        fetchScheduleTimes_records_eq_contrib U now ck date players course st sch sidq hidq h0q]
    · -- a schedule further down the list
      have hstep_frame : ∀ t2, cacheGet
          (fetchScheduleTimes U now ck date players course sch sidq st).2.1.cache
            (CKey.times ck sid date players) t2 =
          cacheGet st.cache (CKey.times ck sid date players) t2 := by
        intro t2
        refine fetchScheduleTimes_frame U now ck date players course st sch sidq _ _ ?_
        intro heq
        have hne : (i, sch).2.id ≠ p.2.id := hNe p hprest
        apply hne
        rw [hidq, hsid]
        injection heq with e1 e2 e3 e4
        rw [e2]
      have hmiss2 : cacheGetTimes
          (fetchScheduleTimes U now ck date players course sch sidq st).2.1.cache
            (CKey.times ck sid date players) now = none := by
        rw [cacheGetTimes_ext (hstep_frame now)]
        exact hmiss
      have := ih (fun r hr => hk r (by simp [hr])) hdrest
        (fetchScheduleTimes U now ck date players course sch sidq st).2.1
        p hprest sid hsid hmiss2 hok t ht
      rw [this]
      congr 1
      refine schedContrib_congr U now ck date players course p.2 ?_
      intro sid3 hsid3
      have hsid4 : sid3 = sid := by
        rw [hsid3] at hsid
        injection hsid
      subst hsid4
      exact cacheGetTimes_ext (hstep_frame now)

theorem fetchLoop_allHits (U : Upstream) (now : Nat) (ck date : String)
    (players : Option Int) (course : Course) :
    ∀ (l : List (Nat × Schedule)), (∀ p ∈ l, truthyN p.2.id = true) →
      ∀ st, (∀ p ∈ l, ∀ sid, p.2.id = some sid →
          cacheGetTimes st.cache (CKey.times ck sid date players) now ≠ none) →
        fetchLoop U now ck date players course l st =
          (l.flatMap (fun p => schedContrib U now ck date players course p.2 st), st, []) := by
  intro l
  induction l with
  | nil => intro _ st _; rfl
  | cons p rest ih =>
    intro hk st hhits
    rcases p with ⟨i, sch⟩
    rcases (truthyN_iff sch.id).mp (hk (i, sch) (by simp)) with ⟨sid, hid, h0⟩
    have hne := hhits (i, sch) (by simp) sid hid
    rcases Option.ne_none_iff_exists.mp hne with ⟨rs, hrs⟩
    have hrs2 : cacheGetTimes st.cache (CKey.times ck sid date players) now = some rs := hrs.symm
    simp only [fetchLoop, stepSchedule_known U now ck date players course st i sch sid hid h0,
      fetchScheduleTimes_hit U now ck date players course st sch sid rs hrs2]
    rw [ih (fun q hq => hk q (by simp [hq])) st
      (fun q hq sid2 h2 => hhits q (by simp [hq]) sid2 h2)]
    simp only [List.flatMap_cons, List.append_nil]
    have hcontrib : schedContrib U now ck date players course sch st = rs := by
      unfold schedContrib
      rw [hid]
      simp [h0, hrs2]
    rw [hcontrib]

/-! ## Enumeration helpers -/

theorem mem_enumFrom_snd {l : List α} :
    ∀ {n : Nat} {p : Nat × α}, p ∈ List.enumFrom n l → p.2 ∈ l := by
  induction l with
  | nil => intro n p h; simp [List.enumFrom] at h
  | cons a as ih =>
    intro n p h
    rcases List.mem_cons.mp h with rfl | h2
    · simp
    · exact List.mem_cons.mpr (Or.inr (ih h2))

theorem pairwise_enumFrom_snd {R : α → α → Prop} {l : List α} (h : List.Pairwise R l) :
    ∀ n, List.Pairwise (fun p q : Nat × α => R p.2 q.2) (List.enumFrom n l) := by
  induction l with
  | nil => intro n; simp [List.enumFrom]
  | cons a as ih =>
    intro n
    rcases List.pairwise_cons.mp h with ⟨ha, has⟩
    refine List.pairwise_cons.mpr ⟨?_, ih has (n + 1)⟩
    intro q hq
    exact ha q.2 (mem_enumFrom_snd hq)

theorem flatMap_enumFrom_snd (f : α → List γ) (l : List α) :
    ∀ n, (List.enumFrom n l).flatMap (fun p => f p.2) = l.flatMap f := by
  induction l with
  | nil => intro n; rfl
  | cons a as ih =>
    intro n
    simp only [List.enumFrom, List.flatMap_cons, ih (n + 1)]

theorem le_fst_of_mem_enumFrom {l : List α} :
    ∀ {m : Nat} {r : Nat × α}, r ∈ List.enumFrom m l → m ≤ r.1 := by
  induction l with
  | nil => intro m r hr; simp [List.enumFrom] at hr
  | cons b bs ih =>
    intro m r hr
    rcases List.mem_cons.mp hr with rfl | hr2
    · simp
    · exact Nat.le_of_succ_le (ih hr2)

theorem pairwise_fst_lt_enumFrom (l : List α) :
    ∀ n, List.Pairwise (fun p q : Nat × α => p.1 < q.1) (List.enumFrom n l) := by
  induction l with
  | nil => intro n; simp [List.enumFrom]
  | cons a as ih =>
    intro n
    refine List.pairwise_cons.mpr ⟨?_, ih (n + 1)⟩
    intro q hq
    exact Nat.lt_of_lt_of_le (Nat.lt_succ_self n) (le_fst_of_mem_enumFrom hq)

theorem mem_enumFrom_get? {l : List α} :
    ∀ {n : Nat} {p : Nat × α}, p ∈ List.enumFrom n l →
      n ≤ p.1 ∧ l.get? (p.1 - n) = some p.2 := by
  induction l with
  | nil => intro n p h; simp [List.enumFrom] at h
  | cons a as ih =>
    intro n p h
    rcases List.mem_cons.mp h with rfl | h2
    · simp
    · rcases ih h2 with ⟨hle, hget⟩
      have hlt : n + 1 ≤ p.1 := hle
      refine ⟨Nat.le_of_succ_le hlt, ?_⟩
      have : p.1 - n = (p.1 - (n + 1)) + 1 := by omega
      rw [this]
      simpa using hget

/-! ## Fetch-level lemmas for the registry courses (all ids known) -/



theorem fetchTeeTimes_own (U : Upstream) (now : Nat) (ck date : String)
    (players : Option Int) (st : St) (course : Course)
    (h : lookupCourse st.courses ck = some course) :
    fetchTeeTimes U now ck date players st =
      FetchOut.ok (fetchLoop U now ck date players course course.schedules.enum st).1
        (fetchLoop U now ck date players course course.schedules.enum st).2.1
        (fetchLoop U now ck date players course course.schedules.enum st).2.2 := by
  simp [fetchTeeTimes, jsIndexCourses, h]

/-- Decomposition of a fetch over a course with known distinct schedule
ids: each schedule contributes independently, as a function of the initial
state and its own upstream response. -/
theorem fetchTeeTimes_known_records (U : Upstream) (now : Nat) (ck date : String)
    (players : Option Int) (st : St) (course : Course)
    (h : lookupCourse st.courses ck = some course)
    (hk : AllKnown course) (hd : DistinctIds course) :
    (fetchTeeTimes U now ck date players st).recordsOf =
      course.schedules.flatMap
        (fun sch => schedContrib U now ck date players course sch st) := by
  rw [fetchTeeTimes_own U now ck date players st course h]
  show (fetchLoop U now ck date players course course.schedules.enum st).1 = _
  rw [fetchLoop_known_records U now ck date players course course.schedules.enum
    (fun p hp => hk p.2 (mem_enumFrom_snd hp))
    (pairwise_enumFrom_snd hd 0) st]
  show (List.enumFrom 0 course.schedules).flatMap _ = _
  exact flatMap_enumFrom_snd
    (fun sch => schedContrib U now ck date players course sch st) course.schedules 0

theorem fetchTeeTimes_known_courses (U : Upstream) (now : Nat) (ck date : String)
    (players : Option Int) (st : St) (course : Course)
    (h : lookupCourse st.courses ck = some course) (hk : AllKnown course) :
    (fetchTeeTimes U now ck date players st).stOf.courses = st.courses := by
  rw [fetchTeeTimes_own U now ck date players st course h]
  exact fetchLoop_known_courses U now ck date players course course.schedules.enum
    (fun p hp => hk p.2 (mem_enumFrom_snd hp)) st

theorem fetchTeeTimes_known_noDisc (U : Upstream) (now : Nat) (ck date : String)
    (players : Option Int) (st : St) (course : Course)
    (h : lookupCourse st.courses ck = some course) (hk : AllKnown course) (cid : Nat) :
    UpstreamReq.discovery cid ∉ (fetchTeeTimes U now ck date players st).callsOf := by
  rw [fetchTeeTimes_own U now ck date players st course h]
  exact fetchLoop_known_noDisc U now ck date players course course.schedules.enum
    (fun p hp => hk p.2 (mem_enumFrom_snd hp)) st cid

/-! ## Course views and the record invariant -/



theorem sameView_refl (cs : List (String × Course)) : SameView cs cs := by
  induction cs with
  | nil => exact List.Forall₂.nil
  | cons e es ih => exact List.Forall₂.cons ⟨rfl, rfl⟩ ih

theorem sameView_trans {cs1 cs2 cs3 : List (String × Course)}
    (h1 : SameView cs1 cs2) (h2 : SameView cs2 cs3) : SameView cs1 cs3 := by
  induction h1 generalizing cs3 with
  | nil => cases h2; exact List.Forall₂.nil
  | cons hab hrest ih =>
    cases h2 with
    | cons hbc hrest2 =>
      exact List.Forall₂.cons ⟨hbc.1.trans hab.1, hbc.2.trans hab.2⟩ (ih hrest2)

theorem sameView_symm {cs cs' : List (String × Course)} (h : SameView cs cs') :
    SameView cs' cs := by
  induction h with
  | nil => exact List.Forall₂.nil
  | cons hab hrest ih => exact List.Forall₂.cons ⟨hab.1.symm, hab.2.symm⟩ ih

theorem sameView_lookup {cs cs' : List (String × Course)} (h : SameView cs cs') :
    ∀ k c, lookupCourse cs k = some c →
      ∃ c', lookupCourse cs' k = some c' ∧ viewOfCourse c' = viewOfCourse c := by
  induction h with
  | nil => intro k c hc; simp [lookupCourse] at hc
  | cons hab hrest ih =>
    intro k c hc
    rename_i a b l1 l2
    rcases a with ⟨ka, ca⟩
    rcases b with ⟨kb, cb⟩
    rcases hab with ⟨hk, hv⟩
    simp only at hk hv
    by_cases hka : ka = k
    · subst hka
      rw [lookupCourse, if_pos rfl] at hc
      injection hc with hc
      subst hc
      refine ⟨cb, ?_, hv⟩
      rw [lookupCourse, if_pos hk]
    · rw [lookupCourse, if_neg hka] at hc
      rcases ih k c hc with ⟨c', hc', hv'⟩
      refine ⟨c', ?_, hv'⟩
      rw [lookupCourse, if_neg (hk ▸ hka)]
      exact hc'

theorem sameView_lookup_none {cs cs' : List (String × Course)} (h : SameView cs cs') :
    ∀ k, lookupCourse cs k = none → lookupCourse cs' k = none := by
  induction h with
  | nil => intro k _; rfl
  | cons hab hrest ih =>
    intro k hc
    rename_i a b l1 l2
    rcases a with ⟨ka, ca⟩
    rcases b with ⟨kb, cb⟩
    rcases hab with ⟨hk, _⟩
    simp only at hk
    by_cases hka : ka = k
    · subst hka
      rw [lookupCourse, if_pos rfl] at hc
      exact absurd hc (by simp)
    · rw [lookupCourse, if_neg hka] at hc
      rw [lookupCourse, if_neg (hk ▸ hka)]
      exact ih k hc

theorem setIdAt_map_label (ss : List Schedule) :
    ∀ i v, (setIdAt ss i v).map Schedule.label = ss.map Schedule.label := by
  induction ss with
  | nil => intro i v; rfl
  | cons s rest ih =>
    intro i v
    cases i with
    | zero => rfl
    | succ j => simp only [setIdAt, List.map_cons, ih j v]

theorem setScheduleId_sameView (cs : List (String × Course)) (key : String) (i v : Nat) :
    SameView cs (setScheduleId cs key i v) := by
  induction cs with
  | nil => exact List.Forall₂.nil
  | cons e es ih =>
    rcases e with ⟨k, c⟩
    by_cases hk : k = key
    · simp only [setScheduleId, if_pos hk]
      refine List.Forall₂.cons ⟨rfl, ?_⟩ (sameView_refl es)
      simp [viewOfCourse, setIdAt_map_label]
    · simp only [setScheduleId, if_neg hk]
      exact List.Forall₂.cons ⟨rfl, rfl⟩ ih


theorem recordOk_of_sameView {cs cs' : List (String × Course)} (h : SameView cs cs')
    {r : TeeTimeRecord} (hr : recordOk cs r) : recordOk cs' r := by
  rcases hr with ⟨c, hc, hn, hl, hu⟩
  rcases sameView_lookup h r.courseKey c hc with ⟨c', hc', hv⟩
  refine ⟨c', hc', ?_, ?_, ?_⟩
  · rw [hn]
    have := congrArg Prod.fst hv
    simpa [viewOfCourse] using this.symm
  · have := congrArg (fun p => p.2.2) hv
    simp only [viewOfCourse] at this
    rw [this]
    exact hl
  · rw [hu]
    have := congrArg (fun p => p.2.1) hv
    simpa [viewOfCourse] using this.symm



theorem cacheRecordsOk_schedSet {cs : List (String × Course)} {c : Cache}
    (h : cacheRecordsOk cs c) (k : CKey) (n : Nat) (e : Nat) :
    cacheRecordsOk cs (cacheSet c k (CVal.schedId n) e) := by
  intro k2 rs2 e2 hmem r hr
  rcases List.mem_cons.mp hmem with heq | hmem2
  · injection heq with _ h2
    injection h2 with h3 _
    exact absurd h3 (by simp)
  · exact h k2 rs2 e2 hmem2 r hr

theorem cacheRecordsOk_timesSet {cs : List (String × Course)} {c : Cache}
    (h : cacheRecordsOk cs c) (k : CKey) (rs : List TeeTimeRecord) (e : Nat)
    (hrs : ∀ r ∈ rs, recordOk cs r) :
    cacheRecordsOk cs (cacheSet c k (CVal.times rs) e) := by
  intro k2 rs2 e2 hmem r hr
  rcases List.mem_cons.mp hmem with heq | hmem2
  · injection heq with _ h2
    injection h2 with h3 _
    injection h3 with h4
    exact hrs r (h4 ▸ hr)
  · exact h k2 rs2 e2 hmem2 r hr

/-! ## General state effects of one schedule iteration -/

/-- The schedule-id resolution either leaves the state unchanged, or (on a
successful discovery for a falsy id that also misses the 24h cache) caches
the discovered id and writes it into the course. -/
theorem resolveScheduleId_state (U : Upstream) (now : Nat) (ck : String) (course : Course)
    (i : Nat) (sch : Schedule) (st : St) :
    (resolveScheduleId U now ck course i sch st).2.1 = st ∨
    ∃ d, d ≠ 0 ∧ truthyN sch.id = false ∧
      truthyN (cacheGetSched st.cache (CKey.sched course.courseId) now) = false ∧
      discoverScheduleId (U.disc course.courseId) = some d ∧
      (resolveScheduleId U now ck course i sch st).2.1 =
        { courses := setScheduleId st.courses ck i d,
          cache := cacheSet st.cache (CKey.sched course.courseId)
                     (CVal.schedId d) (now + 86400) } := by
  simp only [resolveScheduleId]
  by_cases h1 : truthyN sch.id = true
  · left; rw [if_pos h1]
  · rw [if_neg h1]
    by_cases h2 : truthyN (cacheGetSched st.cache (CKey.sched course.courseId) now) = true
    · left; rw [if_pos h2]
    · rw [if_neg h2]
      cases hd : discoverScheduleId (U.disc course.courseId) with
      | none => left; simp [truthyN]
      | some d =>
        by_cases hd0 : d = 0
        · left
          subst hd0
          simp [truthyN]
        · right
          have ht : truthyN (some d) = true := by simp [truthyN, hd0]
          refine ⟨d, hd0, by simpa using h1, by simpa using h2, rfl, ?_⟩
          rw [if_pos ht]
          exact rfl

/-- The times part never touches the course registry, so one iteration
either leaves the registry unchanged or writes one discovered id. -/
theorem stepSchedule_courses_cases (U : Upstream) (now : Nat) (ck date : String)
    (players : Option Int) (course : Course) (st : St) (i : Nat) (sch : Schedule) :
    (stepSchedule U now ck date players course st i sch).2.1.courses = st.courses ∨
    ∃ d, d ≠ 0 ∧ truthyN sch.id = false ∧
      (stepSchedule U now ck date players course st i sch).2.1.courses =
        setScheduleId st.courses ck i d := by
  simp only [stepSchedule]
  rcases resolveScheduleId_state U now ck course i sch st with hst | ⟨d, hd0, hfalsy, _, _, hst⟩
  · left
    cases hr : (resolveScheduleId U now ck course i sch st).1 with
    | none => simpa using congrArg St.courses hst
    | some sid =>
      by_cases h0 : sid = 0
      · simp only [h0, if_pos rfl]
        simpa using congrArg St.courses hst
      · simp only [h0, if_false]
        rw [fetchScheduleTimes_courses]
        simpa using congrArg St.courses hst
  · right
    refine ⟨d, hd0, hfalsy, ?_⟩
    cases hr : (resolveScheduleId U now ck course i sch st).1 with
    | none => simpa using congrArg St.courses hst
    | some sid =>
      by_cases h0 : sid = 0
      · simp only [h0, if_pos rfl]
        simpa using congrArg St.courses hst
      · simp only [h0, if_false]
        rw [fetchScheduleTimes_courses]
        simpa using congrArg St.courses hst

theorem stepSchedule_sameView (U : Upstream) (now : Nat) (ck date : String)
    (players : Option Int) (course : Course) (st : St) (i : Nat) (sch : Schedule) :
    SameView st.courses (stepSchedule U now ck date players course st i sch).2.1.courses := by
  rcases stepSchedule_courses_cases U now ck date players course st i sch with
    h | ⟨d, _, _, h⟩
  · rw [h]; exact sameView_refl _
  · rw [h]; exact setScheduleId_sameView _ _ _ _

theorem fetchLoop_sameView (U : Upstream) (now : Nat) (ck date : String)
    (players : Option Int) (course : Course) :
    ∀ (l : List (Nat × Schedule)) (st : St),
      SameView st.courses (fetchLoop U now ck date players course l st).2.1.courses := by
  intro l
  induction l with
  | nil => intro st; exact sameView_refl _
  | cons p rest ih =>
    intro st
    rcases p with ⟨i, sch⟩
    simp only [fetchLoop]
    exact sameView_trans (stepSchedule_sameView U now ck date players course st i sch)
      (ih _)

/-! ## Goodness of produced and cached records -/

theorem fetchScheduleTimes_good (U : Upstream) (now : Nat) (ck date : String)
    (players : Option Int) (course : Course) (sch : Schedule) (sid : Nat) (st : St)
    (cs0 : List (String × Course))
    (hcv : ∃ c0, lookupCourse cs0 ck = some c0 ∧ viewOfCourse c0 = viewOfCourse course)
    (hm : sch ∈ course.schedules)
    (hok : cacheRecordsOk cs0 st.cache) :
    (∀ r ∈ (fetchScheduleTimes U now ck date players course sch sid st).1, recordOk cs0 r) ∧
    cacheRecordsOk cs0 (fetchScheduleTimes U now ck date players course sch sid st).2.1.cache := by
  have hfresh : ∀ slot : Slot, recordOk cs0 (slotToRecord course ck sch slot) := by
    intro slot
    rcases hcv with ⟨c0, hc0, hv⟩
    refine ⟨c0, ?_, ?_, ?_, ?_⟩
    · simpa [slotToRecord] using hc0
    · have := congrArg Prod.fst hv
      simpa [slotToRecord, viewOfCourse] using this.symm
    · have hl := congrArg (fun p => p.2.2) hv
      simp only [viewOfCourse] at hl
      show (slotToRecord course ck sch slot).scheduleLabel ∈ c0.schedules.map Schedule.label
      rw [hl]
      simp only [slotToRecord]
      exact List.mem_map.mpr ⟨sch, hm, rfl⟩
    · have := congrArg (fun p => p.2.1) hv
      simpa [slotToRecord, viewOfCourse] using this.symm
  simp only [fetchScheduleTimes]
  cases hc : cacheGetTimes st.cache (CKey.times ck sid date players) now with
  | some rs =>
    refine ⟨?_, hok⟩
    intro r hr
    rcases cacheGetTimes_mem hc with ⟨e, he⟩
    exact hok _ rs e he r hr
  | none =>
    cases ht : U.times sid date players with
    | err => exact ⟨by simp, hok⟩
    | ok dat =>
      constructor
      · intro r hr
        rcases List.mem_map.mp hr with ⟨slot, _, rfl⟩
        exact hfresh slot
      · refine cacheRecordsOk_timesSet hok _ _ _ ?_
        intro r hr
        rcases List.mem_map.mp hr with ⟨slot, _, rfl⟩
        exact hfresh slot

theorem stepSchedule_good (U : Upstream) (now : Nat) (ck date : String)
    (players : Option Int) (course : Course) (st : St) (i : Nat) (sch : Schedule)
    (cs0 : List (String × Course))
    (hcv : ∃ c0, lookupCourse cs0 ck = some c0 ∧ viewOfCourse c0 = viewOfCourse course)
    (hm : sch ∈ course.schedules)
    (hok : cacheRecordsOk cs0 st.cache) :
    (∀ r ∈ (stepSchedule U now ck date players course st i sch).1, recordOk cs0 r) ∧
    cacheRecordsOk cs0 (stepSchedule U now ck date players course st i sch).2.1.cache := by
  have hok1 : cacheRecordsOk cs0 (resolveScheduleId U now ck course i sch st).2.1.cache := by
    rcases resolveScheduleId_state U now ck course i sch st with hst | ⟨d, _, _, _, _, hst⟩
    · rw [hst]; exact hok
    · rw [hst]
      exact cacheRecordsOk_schedSet hok _ _ _
  simp only [stepSchedule]
  cases hr : (resolveScheduleId U now ck course i sch st).1 with
  | none => exact ⟨by simp, hok1⟩
  | some sid =>
    by_cases h0 : sid = 0
    · simp only [h0, if_pos rfl]
      exact ⟨by simp, hok1⟩
    · simp only [h0, if_false]
      exact fetchScheduleTimes_good U now ck date players course sch sid _ cs0 hcv hm hok1

theorem fetchLoop_good (U : Upstream) (now : Nat) (ck date : String)
    (players : Option Int) (course : Course) (cs0 : List (String × Course))
    (hcv : ∃ c0, lookupCourse cs0 ck = some c0 ∧ viewOfCourse c0 = viewOfCourse course) :
    ∀ (l : List (Nat × Schedule)), (∀ p ∈ l, p.2 ∈ course.schedules) →
      ∀ st, cacheRecordsOk cs0 st.cache →
        (∀ r ∈ (fetchLoop U now ck date players course l st).1, recordOk cs0 r) ∧
        cacheRecordsOk cs0 (fetchLoop U now ck date players course l st).2.1.cache := by
  intro l
  induction l with
  | nil => intro _ st hok; exact ⟨by simp [fetchLoop], hok⟩
  | cons p rest ih =>
    intro hmem st hok
    rcases p with ⟨i, sch⟩
    have hstep := stepSchedule_good U now ck date players course st i sch cs0 hcv
      (hmem (i, sch) (by simp)) hok
    have hrest := ih (fun q hq => hmem q (by simp [hq])) _ hstep.2
    simp only [fetchLoop]
    refine ⟨?_, hrest.2⟩
    intro r hr
    rcases List.mem_append.mp hr with h1 | h2
    · exact hstep.1 r h1
    · exact hrest.1 r h2

theorem fetchTeeTimes_good (U : Upstream) (now : Nat) (ck date : String)
    (players : Option Int) (st : St) (cs0 : List (String × Course))
    (hview : SameView cs0 st.courses) (hok : cacheRecordsOk cs0 st.cache) :
    (∀ r ∈ (fetchTeeTimes U now ck date players st).recordsOf, recordOk cs0 r) ∧
    cacheRecordsOk cs0 (fetchTeeTimes U now ck date players st).stOf.cache ∧
    SameView cs0 (fetchTeeTimes U now ck date players st).stOf.courses := by
  unfold fetchTeeTimes
  cases hidx : jsIndexCourses st.courses ck with
  | undef => exact ⟨by simp [FetchOut.recordsOf], hok, hview⟩
  | proto => exact ⟨by simp [FetchOut.recordsOf], hok, hview⟩
  | own course =>
    have hlook : lookupCourse st.courses ck = some course := by
      unfold jsIndexCourses at hidx
      cases hl : lookupCourse st.courses ck with
      | some c => rw [hl] at hidx; injection hidx with h; rw [h]
      | none =>
        rw [hl] at hidx
        by_cases hp : ck ∈ objectProtoKeys <;> simp [hp] at hidx
    have hcv : ∃ c0, lookupCourse cs0 ck = some c0 ∧ viewOfCourse c0 = viewOfCourse course := by
      rcases sameView_lookup (sameView_symm hview) ck course hlook with ⟨c0, hc0, hv⟩
      exact ⟨c0, hc0, hv⟩
    have hloop := fetchLoop_good U now ck date players course cs0 hcv
      course.schedules.enum (fun p hp => mem_enumFrom_snd hp) st hok
    refine ⟨hloop.1, hloop.2, ?_⟩
    exact sameView_trans hview (fetchLoop_sameView U now ck date players course _ st)

theorem runKeys_good (U : Upstream) (now : Nat) (date : String) (players : Option Int)
    (cs0 : List (String × Course)) :
    ∀ (ks : List String) (st : St), SameView cs0 st.courses → cacheRecordsOk cs0 st.cache →
      (∀ r ∈ (runKeys U now date players ks st).recordsOf, recordOk cs0 r) ∧
      cacheRecordsOk cs0 (runKeys U now date players ks st).stOf.cache ∧
      SameView cs0 (runKeys U now date players ks st).stOf.courses := by
  intro ks
  induction ks with
  | nil =>
    intro st hview hok
    exact ⟨by simp [runKeys, RunOut.recordsOf], hok, hview⟩
  | cons k rest ih =>
    intro st hview hok
    have hfetch := fetchTeeTimes_good U now (jsTrim k) date players st cs0 hview hok
    cases hf : fetchTeeTimes U now (jsTrim k) date players st with
    | raised st1 c1 =>
      have h1 : cacheRecordsOk cs0 st1.cache := by
        have := hfetch.2.1; rwa [hf] at this
      have h2 : SameView cs0 st1.courses := by
        have := hfetch.2.2; rwa [hf] at this
      have hrest := ih st1 h2 h1
      cases hr : runKeys U now date players rest st1 with
      | ok rs2 st2 c2 =>
        rw [hr] at hrest
        have hrun : runKeys U now date players (k :: rest) st =
            RunOut.raised st2 (c1 ++ c2) := by
          simp only [runKeys, hf, hr]
        rw [hrun]
        exact ⟨by simp [RunOut.recordsOf], hrest.2.1, hrest.2.2⟩
      | raised st2 c2 =>
        rw [hr] at hrest
        have hrun : runKeys U now date players (k :: rest) st =
            RunOut.raised st2 (c1 ++ c2) := by
          simp only [runKeys, hf, hr]
        rw [hrun]
        exact ⟨by simp [RunOut.recordsOf], hrest.2.1, hrest.2.2⟩
    | ok rs st1 c1 =>
      have h0 : ∀ r ∈ rs, recordOk cs0 r := by
        intro r hr2
        exact hfetch.1 r (by rw [hf]; exact hr2)
      have h1 : cacheRecordsOk cs0 st1.cache := by
        have := hfetch.2.1; rwa [hf] at this
      have h2 : SameView cs0 st1.courses := by
        have := hfetch.2.2; rwa [hf] at this
      have hrest := ih st1 h2 h1
      cases hr : runKeys U now date players rest st1 with
      | ok rs2 st2 c2 =>
        rw [hr] at hrest
        have hrun : runKeys U now date players (k :: rest) st =
            RunOut.ok (rs ++ rs2) st2 (c1 ++ c2) := by
          simp only [runKeys, hf, hr]
        rw [hrun]
        refine ⟨?_, hrest.2.1, hrest.2.2⟩
        intro r hrr
        simp only [RunOut.recordsOf] at hrr ⊢
        rcases List.mem_append.mp hrr with hA | hB
        · exact h0 r hA
        · exact hrest.1 r (by simpa [RunOut.recordsOf] using hB)
      | raised st2 c2 =>
        rw [hr] at hrest
        have hrun : runKeys U now date players (k :: rest) st =
            RunOut.raised st2 (c1 ++ c2) := by
          simp only [runKeys, hf, hr]
        rw [hrun]
        exact ⟨by simp [RunOut.recordsOf], hrest.2.1, hrest.2.2⟩

/-! ## One-way evolution of schedule ids -/




theorem schedEvolve_refl (s : Schedule) : SchedEvolve s s := ⟨rfl, Or.inl rfl⟩

theorem forall2_schedEvolve_refl (ss : List Schedule) : List.Forall₂ SchedEvolve ss ss := by
  induction ss with
  | nil => exact List.Forall₂.nil
  | cons s rest ih => exact List.Forall₂.cons (schedEvolve_refl s) ih

theorem courseEvolve_refl (c : Course) : CourseEvolve c c :=
  ⟨rfl, rfl, rfl, forall2_schedEvolve_refl c.schedules⟩

theorem coursesEvolve_refl (cs : List (String × Course)) : CoursesEvolve cs cs := by
  induction cs with
  | nil => exact List.Forall₂.nil
  | cons e es ih => exact List.Forall₂.cons ⟨rfl, courseEvolve_refl e.2⟩ ih

theorem schedEvolve_trans {s1 s2 s3 : Schedule}
    (h12 : SchedEvolve s1 s2) (h23 : SchedEvolve s2 s3) : SchedEvolve s1 s3 := by
  refine ⟨h23.1.trans h12.1, ?_⟩
  rcases h12.2 with h12i | ⟨hf1, ht2⟩
  · rcases h23.2 with h23i | ⟨hf2, ht3⟩
    · exact Or.inl (h23i.trans h12i)
    · exact Or.inr ⟨by rw [← h12i]; exact hf2, ht3⟩
  · rcases h23.2 with h23i | ⟨hf2, ht3⟩
    · exact Or.inr ⟨hf1, by rw [h23i]; exact ht2⟩
    · exact Or.inr ⟨hf1, ht3⟩

theorem forall2_schedEvolve_trans {l1 l2 l3 : List Schedule}
    (h12 : List.Forall₂ SchedEvolve l1 l2) (h23 : List.Forall₂ SchedEvolve l2 l3) :
    List.Forall₂ SchedEvolve l1 l3 := by
  induction h12 generalizing l3 with
  | nil => cases h23; exact List.Forall₂.nil
  | cons hab hrest ih =>
    cases h23 with
    | cons hbc hrest2 => exact List.Forall₂.cons (schedEvolve_trans hab hbc) (ih hrest2)

theorem courseEvolve_trans {c1 c2 c3 : Course}
    (h12 : CourseEvolve c1 c2) (h23 : CourseEvolve c2 c3) : CourseEvolve c1 c3 :=
  ⟨h23.1.trans h12.1, (h23.2.1).trans h12.2.1, (h23.2.2.1).trans h12.2.2.1,
    forall2_schedEvolve_trans h12.2.2.2 h23.2.2.2⟩

theorem coursesEvolve_trans {cs1 cs2 cs3 : List (String × Course)}
    (h12 : CoursesEvolve cs1 cs2) (h23 : CoursesEvolve cs2 cs3) : CoursesEvolve cs1 cs3 := by
  induction h12 generalizing cs3 with
  | nil => cases h23; exact List.Forall₂.nil
  | cons hab hrest ih =>
    cases h23 with
    | cons hbc hrest2 =>
      exact List.Forall₂.cons ⟨hbc.1.trans hab.1, courseEvolve_trans hab.2 hbc.2⟩ (ih hrest2)

theorem setIdAt_get?_ne (ss : List Schedule) :
    ∀ (i j v : Nat), i ≠ j → (setIdAt ss i v).get? j = ss.get? j := by
  induction ss with
  | nil => intro i j v _; simp [setIdAt]
  | cons s rest ih =>
    intro i j v hij
    cases i with
    | zero =>
      cases j with
      | zero => exact absurd rfl hij
      | succ j0 => simp [setIdAt]
    | succ i0 =>
      cases j with
      | zero => simp [setIdAt]
      | succ j0 =>
        simp only [setIdAt, List.get?]
        exact ih i0 j0 v (fun h => hij (by rw [h]))

theorem forall2_schedEvolve_setIdAt (ss : List Schedule) :
    ∀ (i v : Nat) (s : Schedule), ss.get? i = some s → truthyN s.id = false → v ≠ 0 →
      List.Forall₂ SchedEvolve ss (setIdAt ss i v) := by
  induction ss with
  | nil => intro i v s hget; simp at hget
  | cons s0 rest ih =>
    intro i v s hget hfalsy hv
    cases i with
    | zero =>
      simp only [List.get?] at hget
      injection hget with hget
      subst hget
      refine List.Forall₂.cons ⟨rfl, Or.inr ⟨hfalsy, by simp [truthyN, hv]⟩⟩
        (forall2_schedEvolve_refl rest)
    | succ i0 =>
      simp only [List.get?] at hget
      exact List.Forall₂.cons (schedEvolve_refl s0) (ih i0 v s hget hfalsy hv)

theorem lookup_setScheduleId_self (cs : List (String × Course)) (key : String) (i v : Nat) :
    lookupCourse (setScheduleId cs key i v) key =
      match lookupCourse cs key with
      | some c => some { c with schedules := setIdAt c.schedules i v }
      | none => none := by
  induction cs with
  | nil => rfl
  | cons e es ih =>
    rcases e with ⟨k, c⟩
    by_cases hk : k = key
    · simp [setScheduleId, lookupCourse, hk]
    · simp only [setScheduleId, if_neg hk, lookupCourse, if_neg hk, ih]

theorem setScheduleId_of_lookup_none (cs : List (String × Course)) (key : String) (i v : Nat)
    (h : lookupCourse cs key = none) : setScheduleId cs key i v = cs := by
  induction cs with
  | nil => rfl
  | cons e es ih =>
    rcases e with ⟨k, c⟩
    by_cases hk : k = key
    · rw [lookupCourse, if_pos hk] at h
      exact absurd h (by simp)
    · rw [lookupCourse, if_neg hk] at h
      simp only [setScheduleId, if_neg hk, ih h]

theorem setScheduleId_evolve (cs : List (String × Course)) (key : String) (i v : Nat)
    (c : Course) (s : Schedule) (hc : lookupCourse cs key = some c)
    (hs : c.schedules.get? i = some s) (hfalsy : truthyN s.id = false) (hv : v ≠ 0) :
    CoursesEvolve cs (setScheduleId cs key i v) := by
  induction cs with
  | nil => exact List.Forall₂.nil
  | cons e es ih =>
    rcases e with ⟨k, c0⟩
    by_cases hk : k = key
    · rw [lookupCourse, if_pos hk] at hc
      injection hc with hc
      subst hc
      simp only [setScheduleId, if_pos hk]
      refine List.Forall₂.cons ⟨rfl, rfl, rfl, rfl, ?_⟩ (coursesEvolve_refl es)
      exact forall2_schedEvolve_setIdAt c0.schedules i v s hs hfalsy hv
    · rw [lookupCourse, if_neg hk] at hc
      simp only [setScheduleId, if_neg hk]
      exact List.Forall₂.cons ⟨rfl, courseEvolve_refl c0⟩ (ih hc)

theorem fetchLoop_evolve (U : Upstream) (now : Nat) (ck date : String)
    (players : Option Int) (course : Course) :
    ∀ (l : List (Nat × Schedule)),
      List.Pairwise (fun p q : Nat × Schedule => p.1 ≠ q.1) l →
      ∀ st, (∀ p ∈ l, ∀ c, lookupCourse st.courses ck = some c →
          c.schedules.get? p.1 = some p.2) →
        CoursesEvolve st.courses (fetchLoop U now ck date players course l st).2.1.courses := by
  intro l
  induction l with
  | nil => intro _ st _; exact coursesEvolve_refl st.courses
  | cons p rest ih =>
    intro hpw st hinv
    rcases p with ⟨i, sch⟩
    rcases List.pairwise_cons.mp hpw with ⟨hne, hpwrest⟩
    simp only [fetchLoop]
    rcases stepSchedule_courses_cases U now ck date players course st i sch with
      hcs | ⟨d, hd0, hfalsy, hcs⟩
    · -- registry unchanged by this iteration
      have h1 : CoursesEvolve st.courses
          (stepSchedule U now ck date players course st i sch).2.1.courses := by
        rw [hcs]; exact coursesEvolve_refl st.courses
      refine coursesEvolve_trans h1 ?_
      refine ih hpwrest _ ?_
      intro q hq c hcq
      rw [hcs] at hcq
      exact hinv q (by simp [hq]) c hcq
    · -- this iteration wrote a discovered id at position i
      cases hlook : lookupCourse st.courses ck with
      | none =>
        have hid : (stepSchedule U now ck date players course st i sch).2.1.courses =
            st.courses := by
          rw [hcs]
          exact setScheduleId_of_lookup_none st.courses ck i d hlook
        have h1 : CoursesEvolve st.courses
            (stepSchedule U now ck date players course st i sch).2.1.courses := by
          rw [hid]; exact coursesEvolve_refl st.courses
        refine coursesEvolve_trans h1 ?_
        refine ih hpwrest _ ?_
        intro q hq c hcq
        rw [hid] at hcq
        exact hinv q (by simp [hq]) c hcq
      | some c =>
        have hgi : c.schedules.get? i = some sch := hinv (i, sch) (by simp) c hlook
        have h1 : CoursesEvolve st.courses
            (stepSchedule U now ck date players course st i sch).2.1.courses := by
          rw [hcs]
          exact setScheduleId_evolve st.courses ck i d c sch hlook hgi hfalsy hd0
        refine coursesEvolve_trans h1 ?_
        refine ih hpwrest _ ?_
        intro q hq c2 hcq
        rw [hcs, lookup_setScheduleId_self, hlook] at hcq
        injection hcq with hcq
        subst hcq
        show (setIdAt c.schedules i d).get? q.1 = some q.2
        rw [setIdAt_get?_ne c.schedules i q.1 d (hne q hq)]
        exact hinv q (by simp [hq]) c hlook

theorem fetchTeeTimes_evolve (U : Upstream) (now : Nat) (ck date : String)
    (players : Option Int) (st : St) :
    CoursesEvolve st.courses (fetchTeeTimes U now ck date players st).stOf.courses := by
  unfold fetchTeeTimes
  cases hidx : jsIndexCourses st.courses ck with
  | undef => exact coursesEvolve_refl st.courses
  | proto => exact coursesEvolve_refl st.courses
  | own course =>
    have hlook : lookupCourse st.courses ck = some course := by
      unfold jsIndexCourses at hidx
      cases hl : lookupCourse st.courses ck with
      | some c => rw [hl] at hidx; injection hidx with h; rw [h]
      | none =>
        rw [hl] at hidx
        by_cases hp : ck ∈ objectProtoKeys <;> simp [hp] at hidx
    refine fetchLoop_evolve U now ck date players course course.schedules.enum ?_ st ?_
    · exact (pairwise_fst_lt_enumFrom course.schedules 0).imp (fun h => Nat.ne_of_lt h)
    · intro p hp c hcq
      rw [hlook] at hcq
      injection hcq with hcq
      subst hcq
      have := mem_enumFrom_get? hp
      simpa using this.2

/-! ## Cache idempotence and discovery caching -/

theorem mem_enumFrom_of_mem {l : List α} {a : α} (h : a ∈ l) :
    ∀ n, ∃ i, (i, a) ∈ List.enumFrom n l := by
  induction l with
  | nil => simp at h
  | cons b bs ih =>
    intro n
    rcases List.mem_cons.mp h with rfl | h2
    · exact ⟨n, by simp [List.enumFrom]⟩
    · rcases ih h2 (n + 1) with ⟨i, hi⟩
      exact ⟨i, List.mem_cons.mpr (Or.inr hi)⟩

theorem schedContrib_of_hit (U : Upstream) (now : Nat) (ck date : String)
    (players : Option Int) (course : Course) (sch : Schedule) (st : St) (sid : Nat)
    (rs : List TeeTimeRecord) (h : sch.id = some sid) (h0 : sid ≠ 0)
    (hhit : cacheGetTimes st.cache (CKey.times ck sid date players) now = some rs) :
    schedContrib U now ck date players course sch st = rs := by
  unfold schedContrib
  rw [h]
  simp [h0, hhit]

theorem fetchTeeTimes_known_pos (U : Upstream) (now : Nat) (ck date : String)
    (players : Option Int) (st : St) (course : Course)
    (h : lookupCourse st.courses ck = some course) (hk : AllKnown course)
    (hd : DistinctIds course) (sch : Schedule) (hm : sch ∈ course.schedules)
    (sid : Nat) (hsid : sch.id = some sid)
    (hmiss : cacheGetTimes st.cache (CKey.times ck sid date players) now = none)
    (hok : U.times sid date players ≠ TimesResp.err) (t : Nat) (ht : t < now + 300) :
    cacheGetTimes (fetchTeeTimes U now ck date players st).stOf.cache
        (CKey.times ck sid date players) t =
      some (schedContrib U now ck date players course sch st) := by
  rw [fetchTeeTimes_own U now ck date players st course h]
  rcases mem_enumFrom_of_mem hm 0 with ⟨i, hpair⟩
  exact fetchLoop_known_pos U now ck date players course course.schedules.enum
    (fun p hp => hk p.2 (mem_enumFrom_snd hp)) (pairwise_enumFrom_snd hd 0) st
    (i, sch) hpair sid hsid hmiss hok t ht

/-- After a fresh successful fetch, an identical fetch before the entries
expire is answered wholly from the cache: same records, unchanged state,
no upstream request — whatever the upstream would now answer. -/
theorem fetchTeeTimes_refetch_cached (U : Upstream) (now : Nat) (ck date : String)
    (players : Option Int) (st : St) (course : Course)
    (h : lookupCourse st.courses ck = some course) (hk : AllKnown course)
    (hd : DistinctIds course)
    (hmiss : ∀ sch ∈ course.schedules, ∀ sid, sch.id = some sid →
      cacheGetTimes st.cache (CKey.times ck sid date players) now = none)
    (hok : ∀ sch ∈ course.schedules, ∀ sid, sch.id = some sid →
      U.times sid date players ≠ TimesResp.err)
    (U2 : Upstream) (t1 : Nat) (ht1 : now ≤ t1) (ht2 : t1 < now + 300) :
    fetchTeeTimes U2 t1 ck date players (fetchTeeTimes U now ck date players st).stOf =
      FetchOut.ok (fetchTeeTimes U now ck date players st).recordsOf
        (fetchTeeTimes U now ck date players st).stOf [] := by
  have hcourses : (fetchTeeTimes U now ck date players st).stOf.courses = st.courses :=
    fetchTeeTimes_known_courses U now ck date players st course h hk
  have hlook1 : lookupCourse (fetchTeeTimes U now ck date players st).stOf.courses ck =
      some course := by rw [hcourses]; exact h
  have hpos : ∀ sch ∈ course.schedules, ∀ sid, sch.id = some sid →
      cacheGetTimes (fetchTeeTimes U now ck date players st).stOf.cache
          (CKey.times ck sid date players) t1 =
        some (schedContrib U now ck date players course sch st) := by
    intro sch hm sid hsid
    exact fetchTeeTimes_known_pos U now ck date players st course h hk hd sch hm sid hsid
      (hmiss sch hm sid hsid) (hok sch hm sid hsid) t1 ht2
  have hhits : ∀ p ∈ course.schedules.enum, ∀ sid, p.2.id = some sid →
      cacheGetTimes (fetchTeeTimes U now ck date players st).stOf.cache
          (CKey.times ck sid date players) t1 ≠ none := by
    intro p hp sid hsid
    rw [hpos p.2 (mem_enumFrom_snd hp) sid hsid]
    simp
  have hallhits := fetchLoop_allHits U2 t1 ck date players course course.schedules.enum
    (fun p hp => hk p.2 (mem_enumFrom_snd hp)) (fetchTeeTimes U now ck date players st).stOf
    hhits
  rw [fetchTeeTimes_own U2 t1 ck date players (fetchTeeTimes U now ck date players st).stOf
    course hlook1, hallhits]
  have hrec : (course.schedules.enum.flatMap fun p =>
      schedContrib U2 t1 ck date players course p.2
        (fetchTeeTimes U now ck date players st).stOf) =
      (fetchTeeTimes U now ck date players st).recordsOf := by
    rw [fetchTeeTimes_known_records U now ck date players st course h hk hd]
    have hstep : (course.schedules.enum.flatMap fun p =>
        schedContrib U2 t1 ck date players course p.2
          (fetchTeeTimes U now ck date players st).stOf) =
        course.schedules.flatMap fun sch =>
          schedContrib U2 t1 ck date players course sch
            (fetchTeeTimes U now ck date players st).stOf := by
      show (List.enumFrom 0 course.schedules).flatMap _ = _
      exact flatMap_enumFrom_snd
        (fun sch => schedContrib U2 t1 ck date players course sch
          (fetchTeeTimes U now ck date players st).stOf) course.schedules 0
    rw [hstep]
    refine flatMap_congr_mem ?_
    intro sch hm
    rcases (truthyN_iff sch.id).mp (hk sch hm) with ⟨sid, hsid, h0⟩
    exact schedContrib_of_hit U2 t1 ck date players course sch _ sid _ hsid h0
      (hpos sch hm sid hsid)
  rw [hrec]

/-- With a single falsy schedule, a missed 24h cache and a successful
discovery, the run writes the discovered id into the course config. -/
theorem fetchTeeTimes_discovery_writes_id (U : Upstream) (now : Nat) (ck date : String)
    (players : Option Int) (st : St) (course : Course) (sch : Schedule) (d : Nat)
    (h : lookupCourse st.courses ck = some course)
    (hsch : course.schedules = [sch])
    (hfalsy : truthyN sch.id = false)
    (hcache : truthyN (cacheGetSched st.cache (CKey.sched course.courseId) now) = false)
    (hdisc : discoverScheduleId (U.disc course.courseId) = some d) (hd0 : d ≠ 0) :
    (fetchTeeTimes U now ck date players st).stOf.courses =
      setScheduleId st.courses ck 0 d := by
  rw [fetchTeeTimes_own U now ck date players st course h]
  show (fetchLoop U now ck date players course course.schedules.enum st).2.1.courses = _
  rw [hsch]
  show (fetchLoop U now ck date players course [(0, sch)] st).2.1.courses = _
  have hres : resolveScheduleId U now ck course 0 sch st =
      (some d,
       { courses := setScheduleId st.courses ck 0 d,
         cache := cacheSet st.cache (CKey.sched course.courseId)
                    (CVal.schedId d) (now + 86400) },
       [UpstreamReq.discovery course.courseId]) := by
    have ht : truthyN (some d) = true := by simp [truthyN, hd0]
    simp only [resolveScheduleId, hfalsy, Bool.false_eq_true, if_false, hcache, hdisc, ht,
      if_true]
    exact rfl
  simp only [fetchLoop, stepSchedule, hres]
  have hd0b : ¬ d = 0 := hd0
  simp only [hd0b, if_false]
  rw [fetchScheduleTimes_courses]

/-! ## Handler shape lemmas -/

theorem handleTeeTimes_run_eq (U : Upstream) (now : Nat) (q : Query) (st : St)
    (date : String) (hdate : q.date = some date) (hne : date ≠ "") :
    handleTeeTimes U now q st =
      handleFromRun date (playersOf q)
        (runKeys U now date (playersOf q) (courseKeysOf st q.courses) st) := by
  simp only [handleTeeTimes, hdate, hne, if_false]
  cases hro : runKeys U now date (playersOf q) (courseKeysOf st q.courses) st with
  | raised st1 calls => rfl
  | ok rs st1 calls => rfl

theorem handleTeeTimes_ok_inv (U : Upstream) (now : Nat) (q : Query) (st : St)
    {d : String} {p : Option Int} {c : Nat} {ts : List TeeTimeRecord} {st' : St}
    {calls : List UpstreamReq}
    (hh : handleTeeTimes U now q st = (ApiResp.ok d p c ts, st', calls)) :
    ∃ date, q.date = some date ∧ date ≠ "" ∧ d = date ∧ p = playersOf q ∧
      ∃ rs, runKeys U now date (playersOf q) (courseKeysOf st q.courses) st =
          RunOut.ok rs st' calls ∧ ts = jsSortBy timeLe rs ∧ c = ts.length := by
  cases hq : q.date with
  | none =>
    rw [show handleTeeTimes U now q st =
        (ApiResp.badRequest "date parameter required (MM-DD-YYYY)", st, []) from
      by simp [handleTeeTimes, hq]] at hh
    injection hh with h1 _
    exact absurd h1 (by simp)
  | some date =>
    by_cases hne : date = ""
    · rw [show handleTeeTimes U now q st =
          (ApiResp.badRequest "date parameter required (MM-DD-YYYY)", st, []) from
        by simp [handleTeeTimes, hq, hne]] at hh
      injection hh with h1 _
      exact absurd h1 (by simp)
    · rw [handleTeeTimes_run_eq U now q st date hq hne] at hh
      cases hro : runKeys U now date (playersOf q) (courseKeysOf st q.courses) st with
      | raised st1 cls =>
        rw [hro] at hh
        simp only [handleFromRun] at hh
        injection hh with h1 _
        exact absurd h1 (by simp)
      | ok rs st1 cls =>
        rw [hro] at hh
        simp only [handleFromRun] at hh
        injection hh with h1 h2
        injection h2 with h2a h2b
        injection h1 with hd hp hc hts
        refine ⟨date, rfl, hne, hd.symm, hp.symm, rs, ?_, hts.symm, ?_⟩
        · rw [hro, h2a, h2b]
        · rw [← hts, ← hc]

theorem runKeys_eq_plain (U : Upstream) (now : Nat) (date : String) (players : Option Int) :
    ∀ (ks : List String) (st : St),
      runKeys U now date players ks st = runKeysPlain U now date players (ks.map jsTrim) st := by
  intro ks
  induction ks with
  | nil => intro st; rfl
  | cons k rest ih =>
    intro st
    simp only [runKeys, List.map_cons, runKeysPlain, ih]

theorem cacheGood_stReg : CacheGood stReg := by
  intro k rs e h r hr
  simp [stReg] at h

/-! ## Claims -/

/-- C1 (amended): for a request with a valid date and a nonempty courses
list answered with a 200, if every returned record has a present
(non-falsy) time the teetimes sequence is sorted ascending by the time
field under lexicographic string comparison; in all cases records whose
time is absent do not cause a crash and keep their relative input order
among themselves (the sort leaves the falsy-time subsequence equal to the
unsorted aggregate's falsy-time subsequence). -/
theorem teetimes_sorted_when_all_present
    (U : Upstream) (now : Nat) (q : Query) (st : St) (date cs : String)
    (hdate : q.date = some date) (hne : date ≠ "")
    (hcs : q.courses = some cs) (hcsne : cs ≠ "")
    (d : String) (p : Option Int) (c : Nat) (ts : List TeeTimeRecord) (st' : St)
    (calls : List UpstreamReq)
    (hh : handleTeeTimes U now q st = (ApiResp.ok d p c ts, st', calls)) :
    ((∀ r ∈ ts, falsyTime r = false) →
      List.Pairwise (fun a b => timeLe a b = true) ts) ∧
    ts.filter (fun r => falsyTime r) =
      (runKeys U now date (playersOf q) (courseKeysOf st q.courses) st).recordsOf.filter
        (fun r => falsyTime r) := by
  rcases handleTeeTimes_ok_inv U now q st hh with
    ⟨date2, hdate2, hne2, hd, hp, rs, hro, hts, hc⟩
  have hdd : date2 = date := by
    rw [hdate] at hdate2
    injection hdate2 with h
    exact h.symm
  subst hdd
  subst hts
  constructor
  · intro hall
    refine pairwise_jsSortBy timeLe (fun r => falsyTime r = false)
      timeLe_total_present timeLe_trans_present rs ?_
    intro a ha
    exact hall a ((mem_jsSortBy timeLe rs a).mpr ha)
  · rw [hro]
    simp only [RunOut.recordsOf]
    exact filter_jsSortBy (fun r => falsyTime r) timeLe rs
      (fun x y hx => timeLe_of_falsy_left y hx)

/-- C1 witness: a concrete two-course request with all times present; the
sorted response and the order-preservation equation, obtained from the
claim theorem with every hypothesis discharged. -/
theorem teetimes_sorted_when_all_present_wit :
    List.Pairwise (fun a b => timeLe a b = true) [recA, recB] ∧
    [recA, recB].filter (fun r => falsyTime r) =
      (runKeys Uwit 0 "06-15-2025" (playersOf qcex)
        (courseKeysOf stReg qcex.courses) stReg).recordsOf.filter
          (fun r => falsyTime r) := by
  have h := teetimes_sorted_when_all_present Uwit 0 qcex stReg "06-15-2025"
    "lafortune,battlecreek" rfl (by decide) rfl (by decide)
    "06-15-2025" (some 2) 2 [recA, recB]
    (handleTeeTimes Uwit 0 qcex stReg).2.1 (handleTeeTimes Uwit 0 qcex stReg).2.2 rfl
  exact ⟨h.1 (by decide), h.2⟩

/-- C1 counterexample: with a missing-time record interleaved, the 200
response's teetimes are NOT sorted ascending by time: the 9:00 LaFortune
record precedes the 8:00 Battle Creek record because the comparator
returns "no preference" against the record without a time. -/
theorem sort_missing_time_unsorted_cex :
    (handleTeeTimes Ucex 0 qcex stReg).1 =
      ApiResp.ok "06-15-2025" (some 2) 3 [recB, recM, recA] ∧
    falsyTime recB = false ∧ falsyTime recA = false ∧
    ¬ List.Pairwise (fun a b => timeLe a b = true) [recB, recM, recA] := by
  refine ⟨rfl, rfl, rfl, ?_⟩
  decide

/-- C2: a request without the `date` query parameter is answered with a
400 status and an `error` field, the state is untouched and no upstream
request of any kind is issued. -/
theorem missing_date_yields_400_no_fetch
    (U : Upstream) (now : Nat) (q : Query) (st : St) (h : q.date = none) :
    handleTeeTimes U now q st =
      (ApiResp.badRequest "date parameter required (MM-DD-YYYY)", st, []) ∧
    (handleTeeTimes U now q st).1.status = 400 ∧
    (handleTeeTimes U now q st).1.errorField ≠ none ∧
    (handleTeeTimes U now q st).2.2 = [] := by
  have he : handleTeeTimes U now q st =
      (ApiResp.badRequest "date parameter required (MM-DD-YYYY)", st, []) := by
    simp [handleTeeTimes, h]
  refine ⟨he, ?_, ?_, ?_⟩ <;> rw [he] <;> simp [ApiResp.status, ApiResp.errorField]

/-- C2 witness: the concrete dateless request. -/
theorem missing_date_yields_400_no_fetch_wit :
    handleTeeTimes Uerr 0 qNoDate stReg =
      (ApiResp.badRequest "date parameter required (MM-DD-YYYY)", stReg, []) ∧
    (handleTeeTimes Uerr 0 qNoDate stReg).1.status = 400 ∧
    (handleTeeTimes Uerr 0 qNoDate stReg).1.errorField ≠ none ∧
    (handleTeeTimes Uerr 0 qNoDate stReg).2.2 = [] :=
  missing_date_yields_400_no_fetch Uerr 0 qNoDate stReg rfl

/-- C3 (code bug): `toString` is not a key of the registry, yet
`courses=toString` does not yield a graceful exclusion: the inherited
`Object.prototype.toString` passes the `!course` guard, iterating its
absent `schedules` throws, and the request is answered 500 with an error
— contradicting the claim that unknown keys yield no records and no
error. -/
theorem proto_key_causes_500_eval :
    lookupCourse stReg.courses "toString" = none ∧
    handleTeeTimes Uerr 0 qproto stReg =
      (ApiResp.serverError "Failed to fetch tee times", stReg, []) ∧
    (handleTeeTimes Uerr 0 qproto stReg).1.status = 500 := by
  exact ⟨rfl, rfl, rfl⟩

/-- C4 (code bug): `fetchTeeTimes` does raise for some inputs: for the
non-registry key `toString` the prototype-inherited lookup result is
truthy, and iterating its absent `schedules` raises a `TypeError`
(a rejected promise) instead of returning an empty sequence. -/
theorem fetch_raises_on_proto_key_eval :
    lookupCourse stReg.courses "toString" = none ∧
    fetchTeeTimes Uerr 0 "toString" "06-15-2025" (some 2) stReg =
      FetchOut.raised stReg [] := by
  exact ⟨rfl, rfl⟩

/-- C5: `discoverScheduleId` returns `none` on a failed page fetch; on a
page body it returns `some n` exactly when `n` is the capture of the
leftmost `"schedule_id": digits` match, or — only when that pattern
matches nowhere — the capture of the leftmost `"id": digits ,
"facility_id"` match; it returns `none` exactly when neither pattern
matches anywhere. Being a total function, it never raises. -/
theorem discoverScheduleId_first_match_spec :
    discoverScheduleId DiscResp.err = none ∧
    (∀ (body : String) (n : Nat),
      discoverScheduleId (DiscResp.ok body) = some n ↔
        (FirstPatMatch matchScheduleIdPat body n ∨
          ((∀ i, matchScheduleIdPat (body.toList.drop i) = none) ∧
            FirstPatMatch matchIdFacilityPat body n))) ∧
    (∀ body : String,
      discoverScheduleId (DiscResp.ok body) = none ↔
        ((∀ i, matchScheduleIdPat (body.toList.drop i) = none) ∧
          (∀ i, matchIdFacilityPat (body.toList.drop i) = none))) := by
  refine ⟨rfl, ?_, ?_⟩
  · intro body n
    simp only [discoverScheduleId, FirstPatMatch]
    constructor
    · intro h
      cases h1 : scanFirst matchScheduleIdPat body.toList with
      | some m =>
        refine Or.inl ?_
        rw [h1] at h
        have hmn : m = n := by simpa using h
        rw [← hmn]
        exact (scanFirst_eq_some_iff matchScheduleIdPat matchScheduleIdPat_nil
          body.toList m).mp h1
      | none =>
        rw [h1] at h
        exact Or.inr ⟨(scanFirst_eq_none_iff _ matchScheduleIdPat_nil _).mp h1,
          (scanFirst_eq_some_iff _ matchIdFacilityPat_nil _ n).mp h⟩
    · intro h
      rcases h with hfm | ⟨hnone, hfm⟩
      · rw [(scanFirst_eq_some_iff _ matchScheduleIdPat_nil _ n).mpr hfm]
      · rw [(scanFirst_eq_none_iff _ matchScheduleIdPat_nil _).mpr hnone]
        exact (scanFirst_eq_some_iff _ matchIdFacilityPat_nil _ n).mpr hfm
  · intro body
    simp only [discoverScheduleId]
    constructor
    · intro h
      cases h1 : scanFirst matchScheduleIdPat body.toList with
      | some m => rw [h1] at h; exact absurd h (by simp)
      | none =>
        rw [h1] at h
        exact ⟨(scanFirst_eq_none_iff _ matchScheduleIdPat_nil _).mp h1,
          (scanFirst_eq_none_iff _ matchIdFacilityPat_nil _).mp h⟩
    · rintro ⟨h1, h2⟩
      rw [(scanFirst_eq_none_iff _ matchScheduleIdPat_nil _).mpr h1]
      exact (scanFirst_eq_none_iff _ matchIdFacilityPat_nil _).mpr h2

/-- C6 (amended): two identical fetches (same course key, schedule ids,
date, party size) return identical teetimes, the second served wholly
from the times cache without consulting the upstream — provided the
second comes within 5 minutes of the first fetch that actually populated
the cache (fresh entries, no HTTP error); the upstream may answer
arbitrarily differently in between. -/
theorem identical_query_within_ttl_cached
    (U : Upstream) (now : Nat) (ck date : String) (players : Option Int) (st : St)
    (course : Course)
    (h : lookupCourse st.courses ck = some course) (hk : AllKnown course)
    (hd : DistinctIds course)
    (hmiss : ∀ sch ∈ course.schedules, ∀ sid, sch.id = some sid →
      cacheGetTimes st.cache (CKey.times ck sid date players) now = none)
    (hok : ∀ sch ∈ course.schedules, ∀ sid, sch.id = some sid →
      U.times sid date players ≠ TimesResp.err)
    (U2 : Upstream) (t1 : Nat) (ht1 : now ≤ t1) (ht2 : t1 < now + 300) :
    fetchTeeTimes U2 t1 ck date players (fetchTeeTimes U now ck date players st).stOf =
      FetchOut.ok (fetchTeeTimes U now ck date players st).recordsOf
        (fetchTeeTimes U now ck date players st).stOf [] :=
  fetchTeeTimes_refetch_cached U now ck date players st course h hk hd hmiss hok U2 t1 ht1 ht2

/-- C6 witness: LaFortune fetched at t=0 under one upstream, refetched at
t=200 under a different upstream: identical outcome, no upstream call. -/
theorem identical_query_within_ttl_cached_wit :
    fetchTeeTimes UB 200 "lafortune" "06-15-2025" (some 2)
        (fetchTeeTimes UA 0 "lafortune" "06-15-2025" (some 2) stReg).stOf =
      FetchOut.ok (fetchTeeTimes UA 0 "lafortune" "06-15-2025" (some 2) stReg).recordsOf
        (fetchTeeTimes UA 0 "lafortune" "06-15-2025" (some 2) stReg).stOf [] := by
  refine identical_query_within_ttl_cached UA 0 "lafortune" "06-15-2025" (some 2) stReg
    lafortuneCourse rfl (by decide) (by decide) ?_ ?_ UB 200 (by decide) (by decide)
  · intro sch hm sid hsid
    rfl
  · intro sch hm sid hsid
    simp only [lafortuneCourse, List.mem_singleton] at hm
    subst hm
    simp only at hsid
    injection hsid with hsid
    subst hsid
    decide

/-- C6 counterexample: two identical queries 20 seconds apart (at t=290
and t=310) return different teetimes and the second consults the
upstream, because the entry cached at t=0 expires at t=300: the 5-minute
window runs from the entry's creation, not from the previous query. -/
theorem cache_expiry_pair_cex :
    (fetchTeeTimes UA 290 "lafortune" "06-15-2025" (some 2)
        (fetchTeeTimes UA 0 "lafortune" "06-15-2025" (some 2) stReg).stOf).recordsOf =
      [recAL] ∧
    (fetchTeeTimes UA 290 "lafortune" "06-15-2025" (some 2)
        (fetchTeeTimes UA 0 "lafortune" "06-15-2025" (some 2) stReg).stOf).callsOf = [] ∧
    (fetchTeeTimes UB 310 "lafortune" "06-15-2025" (some 2)
        (fetchTeeTimes UA 290 "lafortune" "06-15-2025" (some 2)
          (fetchTeeTimes UA 0 "lafortune" "06-15-2025" (some 2) stReg).stOf).stOf).recordsOf =
      [recB] ∧
    (fetchTeeTimes UB 310 "lafortune" "06-15-2025" (some 2)
        (fetchTeeTimes UA 290 "lafortune" "06-15-2025" (some 2)
          (fetchTeeTimes UA 0 "lafortune" "06-15-2025" (some 2) stReg).stOf).stOf).callsOf =
      [UpstreamReq.times 6194 "06-15-2025" (some 2)] ∧
    ([recAL] : List TeeTimeRecord) ≠ [recB] ∧ 310 - 290 < 300 := by
  refine ⟨rfl, rfl, rfl, rfl, by decide, by decide⟩

/-- C7: once a facility's schedule id has been resolved by discovery
(falsy static id, missed 24h cache, successful page scan), any later
query for the same course within 24 hours issues no discovery request:
the id is taken from the lazily populated schedule config. -/
theorem discovery_not_reinvoked_within_24h
    (U : Upstream) (t0 : Nat) (ck date : String) (players : Option Int) (st : St)
    (course : Course) (sch : Schedule) (d : Nat)
    (h : lookupCourse st.courses ck = some course)
    (hsch : course.schedules = [sch])
    (hfalsy : truthyN sch.id = false)
    (hcache : truthyN (cacheGetSched st.cache (CKey.sched course.courseId) t0) = false)
    (hdisc : discoverScheduleId (U.disc course.courseId) = some d) (hd0 : d ≠ 0)
    (U2 : Upstream) (date2 : String) (players2 : Option Int) (t1 : Nat)
    (ht1 : t0 ≤ t1) (ht2 : t1 < t0 + 86400) (cid : Nat) :
    UpstreamReq.discovery cid ∉
      (fetchTeeTimes U2 t1 ck date2 players2
        (fetchTeeTimes U t0 ck date players st).stOf).callsOf := by
  have hcourses := fetchTeeTimes_discovery_writes_id U t0 ck date players st course sch d
    h hsch hfalsy hcache hdisc hd0
  have hlook1 : lookupCourse (fetchTeeTimes U t0 ck date players st).stOf.courses ck =
      some { course with schedules := setIdAt course.schedules 0 d } := by
    rw [hcourses, lookup_setScheduleId_self, h]
  have hsch2 : setIdAt course.schedules 0 d = [{ sch with id := some d }] := by
    rw [hsch]
    rfl
  have hk2 : AllKnown { course with schedules := setIdAt course.schedules 0 d } := by
    intro s hs
    rw [show ({ course with schedules := setIdAt course.schedules 0 d } : Course).schedules =
        setIdAt course.schedules 0 d from rfl, hsch2, List.mem_singleton] at hs
    subst hs
    simp [truthyN, hd0]
  exact fetchTeeTimes_known_noDisc U2 t1 ck date2 players2 _ _ hlook1 hk2 cid

/-- C7 witness: the mystery course is resolved by discovery at t=0; a
query at t=100 under a different upstream issues no discovery request. -/
theorem discovery_not_reinvoked_within_24h_wit :
    UpstreamReq.discovery 999 ∉
      (fetchTeeTimes Uerr 100 "mystery" "07-01-2025" (some 3)
        (fetchTeeTimes Udisc 0 "mystery" "06-15-2025" (some 2) stMyst).stOf).callsOf :=
  discovery_not_reinvoked_within_24h Udisc 0 "mystery" "06-15-2025" (some 2) stMyst
    mysteryCourse { id := none, label := "Main" } 4242 rfl rfl rfl rfl (by decide)
    (by decide) Uerr "07-01-2025" (some 3) 100 (by decide) (by decide) 999

/-- C8: under the invariant that every cached times entry references a
registered course (true of the boot state's empty cache), every record of
a 200 response carries a courseKey resolving to a course config of the
registry whose display name, schedule label and booking url the record
carries; and the invariant is preserved by the request. -/
theorem records_reference_known_course
    (U : Upstream) (now : Nat) (q : Query) (st : St) (hcg : CacheGood st)
    (d : String) (p : Option Int) (c : Nat) (ts : List TeeTimeRecord) (st' : St)
    (calls : List UpstreamReq)
    (hh : handleTeeTimes U now q st = (ApiResp.ok d p c ts, st', calls)) :
    (∀ r ∈ ts, recordOk st.courses r) ∧ CacheGood st' := by
  rcases handleTeeTimes_ok_inv U now q st hh with
    ⟨date, hdate, hne, _, _, rs, hro, hts, _⟩
  have hgood := runKeys_good U now date (playersOf q) st.courses
    (courseKeysOf st q.courses) st (sameView_refl st.courses) hcg
  rw [hro] at hgood
  constructor
  · intro r hr
    have hr2 : r ∈ rs := by
      rw [hts] at hr
      exact (mem_jsSortBy timeLe rs r).mp hr
    exact hgood.1 r (by simpa [RunOut.recordsOf] using hr2)
  · show cacheRecordsOk st'.courses st'.cache
    have h1 : cacheRecordsOk st.courses st'.cache := by
      simpa [RunOut.stOf] using hgood.2.1
    have h2 : SameView st.courses st'.courses := by
      simpa [RunOut.stOf] using hgood.2.2
    intro k rs2 e hmem r hr
    exact recordOk_of_sameView h2 (h1 k rs2 e hmem r hr)

/-- C8 witness: a concrete request against the boot state. -/
theorem records_reference_known_course_wit :
    (∀ r ∈ ([] : List TeeTimeRecord), recordOk stReg.courses r) ∧ CacheGood stReg :=
  records_reference_known_course Uerr 0 qKeyW stReg cacheGood_stReg
    "06-15-2025" (some 2) 0 [] stReg [UpstreamReq.times 6194 "06-15-2025" (some 2)] rfl

/-- C9: a fetch only evolves the registry one way — every schedule keeps
its label and either keeps its id or goes from a falsy (unknown) id to a
truthy (discovered) one, never known-to-known or known-to-unknown — and
repeating a fetch on a course whose schedules are all resolved leaves the
registry unchanged (the mutation is one-way and idempotent). -/
theorem schedule_id_mutation_one_way
    (U : Upstream) (now : Nat) (ck date : String) (players : Option Int) (st : St) :
    CoursesEvolve st.courses (fetchTeeTimes U now ck date players st).stOf.courses ∧
    (∀ course, lookupCourse st.courses ck = some course → AllKnown course →
      (fetchTeeTimes U now ck date players st).stOf.courses = st.courses) :=
  ⟨fetchTeeTimes_evolve U now ck date players st,
   fun course h hk => fetchTeeTimes_known_courses U now ck date players st course h hk⟩

/-- C9 witness: LaFortune's schedule id is statically known, so a fetch
leaves the registry unchanged, and the evolution relation holds. -/
theorem schedule_id_mutation_one_way_wit :
    CoursesEvolve stReg.courses
      (fetchTeeTimes Uerr 0 "lafortune" "06-15-2025" (some 2) stReg).stOf.courses ∧
    (fetchTeeTimes Uerr 0 "lafortune" "06-15-2025" (some 2) stReg).stOf.courses =
      stReg.courses := by
  have h := schedule_id_mutation_one_way Uerr 0 "lafortune" "06-15-2025" (some 2) stReg
  exact ⟨h.1, h.2 lafortuneCourse rfl (by decide)⟩

/-- C10: with a valid date, a request omitting `courses` fans out over
every registered course key (in registry order), and a request supplying
`courses` fans out over the comma-split keys each trimmed of surrounding
whitespace before lookup; trimming is the identity on the registry's own
keys. -/
theorem default_courses_fanout_and_trim
    (U : Upstream) (now : Nat) (q : Query) (st : St) (date : String)
    (hdate : q.date = some date) (hne : date ≠ "") :
    (q.courses = none →
      handleTeeTimes U now q st =
        handleFromRun date (playersOf q)
          (runKeysPlain U now date (playersOf q)
            ((st.courses.map Prod.fst).map jsTrim) st)) ∧
    (∀ s, q.courses = some s → s ≠ "" →
      handleTeeTimes U now q st =
        handleFromRun date (playersOf q)
          (runKeysPlain U now date (playersOf q) ((jsSplitComma s).map jsTrim) st)) ∧
    (COURSES.map Prod.fst).map jsTrim = COURSES.map Prod.fst := by
  refine ⟨?_, ?_, rfl⟩
  · intro hcs
    rw [handleTeeTimes_run_eq U now q st date hdate hne, runKeys_eq_plain]
    simp [courseKeysOf, hcs]
  · intro s hcs hsne
    rw [handleTeeTimes_run_eq U now q st date hdate hne, runKeys_eq_plain]
    simp [courseKeysOf, hcs, hsne]

/-- C10 witness: the concrete two-course request equals the fan-out over
the trimmed split keys. -/
theorem default_courses_fanout_and_trim_wit :
    handleTeeTimes Uerr 0 qcex stReg =
      handleFromRun "06-15-2025" (playersOf qcex)
        (runKeysPlain Uerr 0 "06-15-2025" (playersOf qcex)
          ((jsSplitComma "lafortune,battlecreek").map jsTrim) stReg) := by
  have h := default_courses_fanout_and_trim Uerr 0 qcex stReg "06-15-2025" rfl (by decide)
  exact h.2.1 "lafortune,battlecreek" rfl (by decide)

end TeeTimes
